import Mathlib

/-!
Verification development for `SiEPIC/ann/netlist.py`: a shallow embedding of
the netlist parser (`ObjectModelNetlist.parse_text` / `_parse_line`), the port
matcher (`_match_ports`), the s-matrix cascading loop (`connect_circuit`) and
the engineering-notation converter (`strToSci`), together with theorems about
the claims of the specification.

Modelling conventions:
* Python strings are Lean `String`s; the string primitives the source relies on
  (`in`, `replace`, `split`, `splitlines`, `int(...)`, `str(...)`) are embedded
  as structural functions over `List Char` so that every definition is
  executable and kernel-reducible.
* The s-parameter matrices themselves live in the external `skrf` library; a
  simulation unit records its net list, an abstract tag for its frequency
  array, and the port dimension of its matrix.  The port dimension follows the
  library's documented contract, as restated by the spec: `innerconnect_s`
  removes two ports from one matrix, `connect_s` produces a matrix with
  `pA + pB - 2` ports.
* Fallible Python code (exceptions: `IndexError`, `ValueError`, `TypeError`,
  `AttributeError`, failed registry lookups) is embedded with `Option` /
  `Except`: `none` / `.error` means the Python call raises.
-/

/-! ### String primitives (embedding of the Python string operations) -/

/-- Decimal digit character, as produced by Python `str`: `digChar 3 = '3'`. -/
def digChar (n : Nat) : Char := Char.ofNat (48 + n)

/-- Fuel-driven expansion of a natural number into decimal digits, most
significant digit first.  The fuel is structural; `natRepr` supplies `n + 1`
units, which is always sufficient since every step divides `n` by ten. -/
def natDigitsAux : Nat → Nat → List Char
  | 0, _ => []
  | fuel + 1, n => if n < 10 then [digChar n] else natDigitsAux fuel (n / 10) ++ [digChar (n % 10)]

/-- Embedding of Python `str(n)` for the non-negative net ids that
`connect_circuit` feeds to `_match_ports`. -/
def natRepr (n : Nat) : String := String.mk (natDigitsAux (n + 1) n)

/-- Numeric value of a digit string, used to prove `natRepr` injective. -/
def evalDigits (l : List Char) : Nat := l.foldl (fun a c => 10 * a + (c.toNat - 48)) 0

/-- Containment of a character pattern, embedding of Python `pat in s`. -/
def hasSub (pat : List Char) : List Char → Bool
  | [] => pat.isEmpty
  | x :: xs => pat.isPrefixOf (x :: xs) || hasSub pat xs

/-- Embedding of Python `pat in s` on strings. -/
def strContains (s pat : String) : Bool := hasSub pat.data s.data

/-- Fuel-driven worker for `strReplace`; each step consumes at least one
character, so fuel equal to the length of the subject suffices. -/
def replaceGo (pat rep : List Char) : Nat → List Char → List Char
  | _, [] => []
  | 0, s => s
  | fuel + 1, x :: xs =>
    if !pat.isEmpty && pat.isPrefixOf (x :: xs) then
      rep ++ replaceGo pat rep fuel (xs.drop (pat.length - 1))
    else
      x :: replaceGo pat rep fuel xs

/-- Embedding of Python `s.replace(pat, rep)`: replaces every non-overlapping
occurrence, scanning left to right. -/
def strReplace (s pat rep : String) : String :=
  String.mk (replaceGo pat.data rep.data s.data.length s.data)

/-- Splits a character list at every character satisfying `p`, keeping empty
chunks (they are filtered or ignored by the callers, as in Python). -/
def splitOnP (p : Char → Bool) : List Char → List (List Char)
  | [] => [[]]
  | x :: xs =>
    match splitOnP p xs with
    | [] => [[]]
    | r :: rs => if p x then [] :: r :: rs else (x :: r) :: rs

/-- Splits at every occurrence of one character, embedding of Python
`s.split(c)` for a one-character separator. -/
def splitOnChar (c : Char) (l : List Char) : List (List Char) :=
  splitOnP (fun x => x = c) l

/-- Fuel-driven worker for `splitSeq`; each step consumes at least one
character of the subject. -/
def splitSeqGo (pat : List Char) : Nat → List Char → List Char → List (List Char)
  | _, acc, [] => [acc]
  | 0, acc, rest => [acc ++ rest]
  | fuel + 1, acc, x :: xs =>
    if !pat.isEmpty && pat.isPrefixOf (x :: xs) then
      acc :: splitSeqGo pat fuel [] (xs.drop (pat.length - 1))
    else
      splitSeqGo pat fuel (acc ++ [x]) xs

/-- Embedding of Python `s.split(sep)` for a non-empty multi-character
separator (the source uses it with `'],['`). -/
def splitSeq (pat s : List Char) : List (List Char) := splitSeqGo pat s.length [] s

/-- Whitespace tokenization of a line, embedding of Python `line.split()`:
splits on whitespace and drops the empty pieces. -/
def tokens (line : List Char) : List String :=
  ((splitOnP (fun c => c.isWhitespace) line).filter (fun t => !t.isEmpty)).map String.mk

/-- Line splitting, embedding of Python `text.splitlines()` for the
newline-separated netlist texts in play (a possible trailing empty line is
ignored by the parser's empty-line check). -/
def splitLines (text : String) : List (List Char) := splitOnChar '\n' text.data

/-- All-digit test used by the integer and float literal models. -/
def isDigitList (l : List Char) : Bool := !l.isEmpty && l.all (fun c => c.isDigit)

/-- Embedding of Python `int(s)` for sign-and-digits strings, which is the
shape of every net id token the netlist format produces (`int` raises
`ValueError` on anything else, embedded as `none`). -/
def parseInt? (s : String) : Option Int :=
  match s.data with
  | '-' :: rest => if isDigitList rest then some (-(evalDigits rest : Int)) else none
  | '+' :: rest => if isDigitList rest then some (evalDigits rest : Int) else none
  | l => if isDigitList l then some (evalDigits l : Int) else none

/-- Mantissa of a float literal: digits with at most one point, at least one
digit overall. -/
def mantissaOk (l : List Char) : Bool :=
  match splitOnChar '.' l with
  | [a] => isDigitList a
  | [a, b] => (!a.isEmpty || !b.isEmpty) && a.all (fun c => c.isDigit) && b.all (fun c => c.isDigit)
  | _ => false

/-- Exponent part of a float literal: an optionally signed digit string. -/
def expOk (l : List Char) : Bool :=
  match l with
  | '+' :: r => isDigitList r
  | '-' :: r => isDigitList r
  | r => isDigitList r

/-- Acceptance test of CPython `float(s)` for the decimal literal forms the
netlist format produces (optional surrounding whitespace, optional sign,
decimal mantissa, optional exponent).  The builtin is external code; its
numeric result is kept symbolic, only acceptance versus `ValueError` is
modelled, which is all the claims inspect. -/
def isFloatLit (s : String) : Bool :=
  let t1 := s.data.dropWhile (fun c => c.isWhitespace)
  let t2 := (t1.reverse.dropWhile (fun c => c.isWhitespace)).reverse
  let t3 := match t2 with
    | '+' :: r => r
    | '-' :: r => r
    | r => r
  match splitOnChar 'e' (t3.map Char.toLower) with
  | [m] => mantissaOk m
  | [m, ex] => mantissaOk m && expOk ex
  | _ => false

/-- Symbolic result of Python `float(s)`: the accepted literal itself (no claim
inspects floating-point arithmetic), `none` when `float` raises `ValueError`. -/
def pyFloat? (s : String) : Option String := if isFloatLit s then some s else none

/-! ### `strToSci` -/

/-- Python exceptions distinguished by the embedding of `strToSci`. -/
inductive PyError where
  | indexError
  | valueError
  | typeError
deriving DecidableEq, Repr

/-- Embedding of `strToSci`.  A returned value is the pair of the mantissa
literal `number[:-1]` and the decimal exponent of the unit prefix (`'3u'`
becomes `("3", -6)`); the floating-point product itself is symbolic.  The
failure modes mirror the source: `number[-1]` on an empty string raises
`IndexError`; `float(number[:-1])` raises `ValueError` on a malformed
mantissa; the final fallback `float(number(base) + ex)` calls the input string
as if it were callable and raises `TypeError`. -/
def strToSci (number : String) : Except PyError (String × Int) :=
  match number.data.getLast? with
  | none => .error .indexError
  | some ex =>
    match pyFloat? (String.mk number.data.dropLast) with
    | none => .error .valueError
    | some base =>
      if ex = 'm' then .ok (base, -3)
      else if ex = 'u' then .ok (base, -6)
      else if ex = 'n' then .ok (base, -9)
      else .error .typeError

/-! ### Component records and the parser -/

/-- Component record.  The concrete component classes live in the external
`SiEPIC.ann.models` package (not under `src/`); modelled from the spec, a
record carries its type name plus the type-specific parameter fields that
`_parse_line` assigns: position, radius, waveguide length/width (engineering
notation values, kept as mantissa/exponent pairs), and polygon points (kept as
pairs of accepted float literals). -/
structure Component where
  name : String
  nets : List String
  lay_x : Option String
  lay_y : Option String
  radius : Option String
  length : Option (String × Int)
  width : Option (String × Int)
  points : List (String × String)
deriving DecidableEq, Repr

/-- A blank component record as produced by the registry for a known type
name, before `_parse_line` assigns any field. -/
def blankComponent (name : String) : Component :=
  { name := name, nets := [], lay_x := none, lay_y := none, radius := none
    length := none, width := none, points := [] }

/-- Parser state: the accumulated component list and the running net counter.
`net_count` is an `Int` because the source compares it with `int(net)`, which
may be negative for external nets. -/
structure ObjectModelNetlist where
  component_list : List Component
  net_count : Int
deriving DecidableEq, Repr

/-- A freshly constructed `ObjectModelNetlist` (`__init__`). -/
def omInit : ObjectModelNetlist := { component_list := [], net_count := 0 }

/-- Point-pair parsing of the `points=` value: each `\'],[\'`-separated chunk
is split on `','` and its first two members are converted by `float` (Python
indexes `out[0]` and `out[1]`, so a chunk with fewer than two members raises
`IndexError`, and extra members are ignored). -/
def parsePointList : List (List Char) → Option (List (String × String))
  | [] => some []
  | point :: rest =>
    let out := splitOnChar ',' point
    match out[0]?, out[1]? with
    | some a, some b =>
      match pyFloat? (String.mk a), pyFloat? (String.mk b) with
      | some fa, some fb =>
        match parsePointList rest with
        | some ps => some ((fa, fb) :: ps)
        | none => none
      | _, _ => none
    | _, _ => none

/-- One pass of the token loop of `_parse_line` (the body of
`for item in line_elements[1:]`).  The accumulator mirrors the local state
`(component, nets, self.net_count)`; `none` means the Python body raises
(failed `int`, failed registry lookup, failed `float`, failed `strToSci`,
short point pair).  The registry `create_component_by_name` is external code,
abstracted as the parameter `reg`. -/
def parseItem (reg : String → Option Component)
    (acc : Option Component × List String × Int) (item : String) :
    Option (Option Component × List String × Int) :=
  let (component, nets, net_count) := acc
  if strContains item "N$" then
    let net := strReplace item "N$" ""
    match parseInt? net with
    | none => none
    | some v =>
      some (component, nets ++ [net], if net_count < v then v else net_count)
  else
    match component with
    | none =>
      match reg item with
      | none => none
      | some c => some (some c, nets, net_count)
    | some c =>
      if strContains item "lay_x=" then
        match pyFloat? (strReplace item "lay_x=" "") with
        | none => none
        | some lit => some (some { c with lay_x := some lit }, nets, net_count)
      else if strContains item "lay_y=" then
        match pyFloat? (strReplace item "lay_y=" "") with
        | none => none
        | some lit => some (some { c with lay_y := some lit }, nets, net_count)
      else if strContains item "radius=" then
        match pyFloat? (strReplace item "radius=" "") with
        | none => none
        | some lit => some (some { c with radius := some lit }, nets, net_count)
      else if strContains item "wg_length=" then
        match strToSci (strReplace item "wg_length=" "") with
        | .error _ => none
        | .ok v => some (some { c with length := some v }, nets, net_count)
      else if strContains item "wg_width=" then
        match strToSci (strReplace item "wg_width=" "") with
        | .error _ => none
        | .ok v => some (some { c with width := some (v.1, v.2 + 6) }, nets, net_count)
      else if strContains item "points=" then
        match parsePointList (splitSeq "],[".data
            (strReplace (strReplace (strReplace item "points=" "") "\x22[[" "") "]]\x22" "").data) with
        | none => none
        | some pts => some (some { c with points := c.points ++ pts }, nets, net_count)
      else
        some (some c, nets, net_count)

/-- The token loop of `_parse_line` over `line_elements[1:]`: iterates
`parseItem`, aborting at the first raising body. -/
def parseItems (reg : String → Option Component) :
    (Option Component × List String × Int) → List String →
    Option (Option Component × List String × Int)
  | acc, [] => some acc
  | acc, item :: rest =>
    match parseItem reg acc item with
    | none => none
    | some acc2 => parseItems reg acc2 rest

/-- Embedding of `_parse_line`: runs the token loop on `line_elements[1:]`,
then stores the collected nets on the component and appends it.  When no
component was created the source dereferences `None` (`component.nets = nets`
raises `AttributeError`), embedded as `none`. -/
def _parse_line (reg : String → Option Component) (st : ObjectModelNetlist)
    (line_elements : List String) : Option ObjectModelNetlist :=
  match parseItems reg (none, [], st.net_count) (line_elements.drop 1) with
  | none => none
  | some (component, nets, net_count) =>
    match component with
    | none => none
    | some c =>
      some { component_list := st.component_list ++ [{ c with nets := nets }]
             net_count := net_count }

/-- Line loop of `parse_text`: lines with no tokens are skipped; a first token
containing `.ends` stops the loop (`break`); a first token containing `.` or
`*` is skipped (`continue`); every other line goes through `_parse_line`. -/
def parse_text_go (reg : String → Option Component) (st : ObjectModelNetlist) :
    List (List Char) → Option ObjectModelNetlist
  | [] => some st
  | line :: rest =>
    match tokens line with
    | [] => parse_text_go reg st rest
    | first :: ts =>
      if strContains first ".ends" then some st
      else if strContains first "." || strContains first "*" then parse_text_go reg st rest
      else
        match _parse_line reg st (first :: ts) with
        | none => none
        | some st2 => parse_text_go reg st2 rest

/-- Embedding of `ObjectModelNetlist.parse_text` as a state transformer: the
Python method mutates `self` and returns `self.component_list`, which the
resulting state carries. -/
def parse_text (reg : String → Option Component) (st : ObjectModelNetlist)
    (text : String) : Option ObjectModelNetlist :=
  parse_text_go reg st (splitLines text)

/-- External-net test of `get_external_components`: Python
`any(int(x) < 0 for x in nets)`, which short-circuits at the first negative
value and raises (`none`) at the first malformed id reached. -/
def anyNegative : List String → Option Bool
  | [] => some false
  | x :: xs =>
    match parseInt? x with
    | none => none
    | some v => if v < 0 then some true else anyNegative xs

/-- Embedding of `ObjectModelNetlist.get_external_components`. -/
def get_external_components (netlist : ObjectModelNetlist) : Option (List Component) :=
  go netlist.component_list
where
  go : List Component → Option (List Component)
    | [] => some []
    | c :: cs =>
      match anyNegative c.nets with
      | none => none
      | some b =>
        match go cs with
        | none => none
        | some r => some (if b then c :: r else r)

/-! ### Simulation units and the cascading loop -/

/-- Simulation unit (`ComponentSimulation`): an ordered net list, an abstract
tag standing for the frequency array `f` (only its propagation matters to the
claims), and the port dimension of the s-parameter matrix `s` (the matrix
entries live in the external `skrf` library). -/
structure ComponentSimulation where
  nets : List String
  f : Nat
  ports : Nat
deriving DecidableEq, Repr

/-- Occurrence indices of a net id inside one net list, embedding of
`[i for i, x in enumerate(comp.nets) if x == net_id]`. -/
def occIdxs (t : String) : List String → List Nat
  | [] => []
  | x :: xs =>
    if x = t then 0 :: (occIdxs t xs).map (· + 1) else (occIdxs t xs).map (· + 1)

/-- Indices of the components whose net list contains the id, embedding of
`[component_list.index(c) for c in filtered_comps]` (Python `list.index`
resolves by object identity here, hence to the position of each filtered
component). -/
def compIdxs (t : String) : List ComponentSimulation → List Nat
  | [] => []
  | u :: us =>
    if t ∈ u.nets then 0 :: (compIdxs t us).map (· + 1) else (compIdxs t us).map (· + 1)

/-- Embedding of `_match_ports`: returns
`(comp_idx[0], net_idx[0], comp_idx[1], net_idx[1])` after duplicating a
singleton `comp_idx`; `none` models the `IndexError` the source raises when a
list has fewer than two entries. -/
def _match_ports (net_id : String) (component_list : List ComponentSimulation) :
    Option (Nat × Nat × Nat × Nat) :=
  let comp_idx := compIdxs net_id component_list
  let net_idx :=
    ((component_list.filter (fun c => net_id ∈ c.nets)).map
      (fun c => occIdxs net_id c.nets)).flatten
  let comp_idx2 := if comp_idx.length = 1 then comp_idx ++ comp_idx else comp_idx
  match comp_idx2, net_idx with
  | c1 :: c2 :: _, i1 :: i2 :: _ => some (c1, i1, c2, i2)
  | _, _ => none

/-- One iteration of the reduction loop of `connect_circuit` for net `n`:
the self-connection branch updates the matched unit in place (two ports
removed, the lower net index deleted first and the higher one shifted down by
one); the cascade branch builds the merged unit, deletes both consumed units
and appends the merged one. -/
def connectStep (n : Nat) (cl : List ComponentSimulation) :
    Option (List ComponentSimulation) :=
  match _match_ports (natRepr n) cl with
  | none => none
  | some (ca, ia, cb, ib) =>
    if ca = cb then
      match cl[ca]? with
      | none => none
      | some u =>
        let nets1 := u.nets.eraseIdx ia
        let nets2 := if ia < ib then nets1.eraseIdx (ib - 1) else nets1.eraseIdx ib
        some (cl.set ca { u with nets := nets2, ports := u.ports - 2 })
    else
      match cl[ca]?, cl[cb]?, cl[0]? with
      | some a, some b, some u0 =>
        let combination : ComponentSimulation :=
          { nets := a.nets.eraseIdx ia ++ b.nets.eraseIdx ib
            f := u0.f
            ports := a.ports + b.ports - 2 }
        let cl1 := cl.eraseIdx ca
        let cl2 := if ca < cb then cl1.eraseIdx (cb - 1) else cl1.eraseIdx cb
        some (cl2 ++ [combination])
      | _, _, _ => none

/-- The reduction loop `for n in range(0, net_count + 1)` over the live unit
list. -/
def connectLoop (cl : List ComponentSimulation) (net_count : Nat) :
    Option (List ComponentSimulation) :=
  (List.range (net_count + 1)).foldlM (fun s n => connectStep n s) cl

/-- Embedding of `connect_circuit`.  The construction of the initial
simulation units calls the external `get_s_params` of each component model;
it is abstracted as the parameter `init`.  A `net_count` of zero returns
`None` before any unit is built; otherwise the loop runs and the result pairs
`component_list[0]` with `get_external_components`. -/
def connect_circuit (init : Component → ComponentSimulation)
    (netlist : ObjectModelNetlist) : Option (ComponentSimulation × List Component) :=
  if netlist.net_count = 0 then none
  else
    match connectLoop (netlist.component_list.map init) netlist.net_count.toNat with
    | none => none
    | some cl =>
      match cl[0]?, get_external_components netlist with
      | some u, some ext => some (u, ext)
      | _, _ => none

/-- Canonical instantiation of the external `ComponentSimulation.__init__`:
modelled from the spec, the unit copies the component's net list and obtains
`f, s` from the external model, whose matrix dimension equals the net list
length; the frequency tag is the shared one. -/
def simInit (c : Component) : ComponentSimulation :=
  { nets := c.nets, f := 0, ports := c.nets.length }

/-! ### Derived quantities used by the claims -/

/-- Sum of a unit statistic over the live list. -/
def sumBy (g : ComponentSimulation → Nat) (cl : List ComponentSimulation) : Nat :=
  (cl.map g).sum

/-- Number of occurrences of a net id across the live unit list. -/
def totalCount (t : String) (cl : List ComponentSimulation) : Nat :=
  sumBy (fun u => u.nets.count t) cl

/-- Total port count across the live unit list. -/
def totalPorts (cl : List ComponentSimulation) : Nat := sumBy (fun u => u.ports) cl

/-- External (circuit-boundary) net identifier: a negative-integer string. -/
def isExternalNet (s : String) : Bool :=
  match parseInt? s with
  | some v => v < 0
  | none => false

/-- Two units share an internal net with id in `[lo, hi]`. -/
def sharesNet (lo hi : Nat) (u v : ComponentSimulation) : Prop :=
  ∃ k, lo ≤ k ∧ k ≤ hi ∧ natRepr k ∈ u.nets ∧ natRepr k ∈ v.nets

/-- Adjacency of two positions of the live unit list through an internal net
with id in `[lo, hi]`. -/
def adjIdx (lo hi : Nat) (cl : List ComponentSimulation) (i j : Nat) : Prop :=
  ∃ u v, cl[i]? = some u ∧ cl[j]? = some v ∧ sharesNet lo hi u v

/-- Connectivity of the live unit list through the internal nets `[lo, hi]`. -/
def connectedIdx (lo hi : Nat) (cl : List ComponentSimulation) : Prop :=
  ∀ i j, i < cl.length → j < cl.length → Relation.ReflTransGen (adjIdx lo hi cl) i j

/-- Well-formedness of a simulation-unit list for highest internal net id `N`:
every internal id in `[0, N]` is referenced by exactly two ports, every net
identifier is such an internal id or an external one, and the circuit is
connected. -/
def WellFormedUnits (N : Nat) (cl : List ComponentSimulation) : Prop :=
  (∀ k, k ≤ N → totalCount (natRepr k) cl = 2) ∧
  (∀ u ∈ cl, ∀ s ∈ u.nets, (∃ k, k ≤ N ∧ s = natRepr k) ∨ isExternalNet s = true) ∧
  connectedIdx 0 N cl

/-- Loop invariant of the reduction: before processing net `n`, the ids
`[n, N]` are still referenced exactly twice, the ids below `n` are gone, the
identifier universe is unchanged, and the units are connected through the
remaining internal nets. -/
def LoopInv (n N : Nat) (cl : List ComponentSimulation) : Prop :=
  cl ≠ [] ∧
  (∀ k, n ≤ k → k ≤ N → totalCount (natRepr k) cl = 2) ∧
  (∀ k, k < n → totalCount (natRepr k) cl = 0) ∧
  (∀ u ∈ cl, ∀ s ∈ u.nets, (∃ k, k ≤ N ∧ s = natRepr k) ∨ isExternalNet s = true) ∧
  connectedIdx n N cl

/-- Registry instantiation for concrete computations: every type name is
known and yields the blank record. -/
def reg0 : String → Option Component := fun name => some (blankComponent name)

/-! ### Basic facts about the decimal representation of net ids -/

theorem digChar_toNat (d : Nat) (h : d < 10) : (digChar d).toNat = 48 + d := by
  interval_cases d <;> rfl

theorem evalDigits_append_digit (l : List Char) (c : Char) :
    evalDigits (l ++ [c]) = 10 * evalDigits l + (c.toNat - 48) := by
  simp [evalDigits, List.foldl_append]

theorem evalDigits_natDigitsAux (fuel n : Nat) (h : n < fuel) :
    evalDigits (natDigitsAux fuel n) = n := by
  induction fuel generalizing n with
  | zero => omega
  | succ fuel ih =>
    by_cases h10 : n < 10
    · have : natDigitsAux (fuel + 1) n = [digChar n] := by
        simp [natDigitsAux, h10]
      rw [this]
      have := digChar_toNat n h10
      simp [evalDigits, this]
    · have hrec : natDigitsAux (fuel + 1) n =
          natDigitsAux fuel (n / 10) ++ [digChar (n % 10)] := by
        simp [natDigitsAux, h10]
      have hdiv : n / 10 < n := Nat.div_lt_self (by omega) (by omega)
      rw [hrec, evalDigits_append_digit, ih (n / 10) (by omega),
        digChar_toNat (n % 10) (Nat.mod_lt n (by omega))]
      omega

theorem natRepr_inj {m n : Nat} (h : natRepr m = natRepr n) : m = n := by
  have hd : natDigitsAux (m + 1) m = natDigitsAux (n + 1) n := by
    have := congrArg String.data h
    simpa [natRepr] using this
  have h1 := evalDigits_natDigitsAux (m + 1) m (by omega)
  have h2 := evalDigits_natDigitsAux (n + 1) n (by omega)
  rw [hd] at h1
  omega

theorem natRepr_ne {m n : Nat} (h : m ≠ n) : natRepr m ≠ natRepr n :=
  fun hc => h (natRepr_inj hc)

/-! ### Generic list helper lemmas -/

theorem count_eraseIdx_add (l : List String) (i : Nat) (a : String)
    (h : l[i]? = some a) (s : String) :
    (l.eraseIdx i).count s + (if a = s then 1 else 0) = l.count s := by
  induction l generalizing i with
  | nil => simp at h
  | cons x xs ih =>
    cases i with
    | zero =>
      simp only [List.getElem?_cons_zero, Option.some.injEq] at h
      subst h
      rw [List.eraseIdx_cons_zero, List.count_cons]
      rcases eq_or_ne x s with h1 | h1 <;> simp [h1]
    | succ i =>
      simp only [List.getElem?_cons_succ] at h
      rw [List.eraseIdx_cons_succ, List.count_cons, List.count_cons]
      have := ih i h
      rcases eq_or_ne x s with h1 | h1 <;> simp [h1] <;> omega

theorem mem_of_count_erase {l : List String} {i : Nat} {a : String}
    (h : l[i]? = some a) : a ∈ l := by
  rw [List.mem_iff_getElem?]
  exact ⟨i, h⟩

theorem sumBy_append (g : ComponentSimulation → Nat) (l1 l2 : List ComponentSimulation) :
    sumBy g (l1 ++ l2) = sumBy g l1 + sumBy g l2 := by
  simp [sumBy, List.sum_append]

theorem sumBy_set_add (g : ComponentSimulation → Nat) (cl : List ComponentSimulation)
    (i : Nat) (u u' : ComponentSimulation) (h : cl[i]? = some u) :
    sumBy g (cl.set i u') + g u = sumBy g cl + g u' := by
  induction cl generalizing i with
  | nil => simp at h
  | cons x xs ih =>
    cases i with
    | zero =>
      simp only [List.getElem?_cons_zero, Option.some.injEq] at h
      subst h
      simp [sumBy, List.set]
      omega
    | succ i =>
      simp only [List.getElem?_cons_succ] at h
      have := ih i h
      simp only [List.set, sumBy, List.map_cons, List.sum_cons] at this ⊢
      omega

theorem sumBy_eraseIdx_add (g : ComponentSimulation → Nat) (cl : List ComponentSimulation)
    (i : Nat) (u : ComponentSimulation) (h : cl[i]? = some u) :
    sumBy g (cl.eraseIdx i) + g u = sumBy g cl := by
  induction cl generalizing i with
  | nil => simp at h
  | cons x xs ih =>
    cases i with
    | zero =>
      simp only [List.getElem?_cons_zero, Option.some.injEq] at h
      subst h
      simp [List.eraseIdx_cons_zero, sumBy]
      omega
    | succ i =>
      simp only [List.getElem?_cons_succ] at h
      have := ih i h
      simp only [List.eraseIdx_cons_succ, sumBy, List.map_cons, List.sum_cons] at this ⊢
      omega

theorem pairwise_lt_eq_singleton {l : List Nat} {c : Nat}
    (hp : l.Pairwise (· < ·)) (hm : ∀ x, x ∈ l ↔ x = c) : l = [c] := by
  cases l with
  | nil => exact absurd ((hm c).mpr rfl) (by simp)
  | cons x xs =>
    have hx : x = c := (hm x).mp (by simp)
    subst hx
    cases xs with
    | nil => rfl
    | cons y ys =>
      have hy : y = x := (hm y).mp (by simp)
      have hymem : y ∈ y :: ys := by simp
      have := List.rel_of_pairwise_cons hp hymem
      omega

theorem pairwise_lt_eq_pair {l : List Nat} {a b : Nat}
    (hp : l.Pairwise (· < ·)) (hab : a < b)
    (hm : ∀ x, x ∈ l ↔ x = a ∨ x = b) : l = [a, b] := by
  cases l with
  | nil => exact absurd ((hm a).mpr (Or.inl rfl)) (by simp)
  | cons x xs =>
    rw [List.pairwise_cons] at hp
    obtain ⟨hxlt, hpxs⟩ := hp
    have hxa : x = a := by
      rcases (hm x).mp (List.mem_cons_self x xs) with h | h
      · exact h
      · exfalso
        have ha : a ∈ x :: xs := (hm a).mpr (Or.inl rfl)
        rcases List.mem_cons.mp ha with h2 | h2
        · omega
        · have := hxlt a h2
          omega
    cases xs with
    | nil =>
      exfalso
      have hb : b ∈ x :: ([] : List Nat) := (hm b).mpr (Or.inr rfl)
      simp at hb
      omega
    | cons y ys =>
      have hyb : y = b := by
        rcases (hm y).mp (by simp) with h | h
        · have := hxlt y (by simp)
          omega
        · exact h
      have hys : ys = [] := by
        rw [List.eq_nil_iff_forall_not_mem]
        intro z hz
        have hzy : y < z := (List.pairwise_cons.mp hpxs).1 z (by simp [hz])
        rcases (hm z).mp (by simp [hz]) with h | h
        · have := hxlt z (by simp [hz])
          omega
        · omega
      subst hxa hyb hys
      rfl

/-! ### Characterization of `occIdxs`, `compIdxs` and `_match_ports` -/

theorem occIdxs_length (t : String) (xs : List String) :
    (occIdxs t xs).length = xs.count t := by
  induction xs with
  | nil => simp [occIdxs]
  | cons x xs ih =>
    rw [List.count_cons]
    by_cases h : x = t <;> simp [occIdxs, h, ih]

theorem occIdxs_getElem? (t : String) (xs : List String) :
    ∀ i ∈ occIdxs t xs, xs[i]? = some t := by
  induction xs with
  | nil => simp [occIdxs]
  | cons x xs ih =>
    intro i hi
    by_cases h : x = t
    · simp only [occIdxs, if_pos h] at hi
      rcases List.mem_cons.mp hi with rfl | hi
      · simp [h]
      · obtain ⟨j, hj, rfl⟩ := List.mem_map.mp hi
        simpa [List.getElem?_cons_succ] using ih j hj
    · simp only [occIdxs, if_neg h] at hi
      obtain ⟨j, hj, rfl⟩ := List.mem_map.mp hi
      simpa [List.getElem?_cons_succ] using ih j hj

theorem occIdxs_pairwise (t : String) (xs : List String) :
    (occIdxs t xs).Pairwise (· < ·) := by
  induction xs with
  | nil => simp [occIdxs]
  | cons x xs ih =>
    have hmap : ((occIdxs t xs).map (· + 1)).Pairwise (· < ·) := by
      rw [List.pairwise_map]
      exact ih.imp (by omega)
    by_cases h : x = t
    · simp only [occIdxs, if_pos h]
      refine List.Pairwise.cons ?_ hmap
      intro y hy
      obtain ⟨j, _, rfl⟩ := List.mem_map.mp hy
      omega
    · simpa only [occIdxs, if_neg h] using hmap

theorem occIdxs_eq_nil {t : String} {xs : List String} (h : t ∉ xs) :
    occIdxs t xs = [] := by
  have hl : (occIdxs t xs).length = 0 := by
    rw [occIdxs_length, List.count_eq_zero]
    exact h
  exact List.eq_nil_of_length_eq_zero hl

theorem occIdxs_one {t : String} {xs : List String} (h : xs.count t = 1) :
    ∃ i, occIdxs t xs = [i] ∧ xs[i]? = some t := by
  have hl : (occIdxs t xs).length = 1 := by rw [occIdxs_length, h]
  obtain ⟨i, hi⟩ := List.length_eq_one.mp hl
  exact ⟨i, hi, occIdxs_getElem? t xs i (by simp [hi])⟩

theorem occIdxs_two {t : String} {xs : List String} (h : xs.count t = 2) :
    ∃ i1 i2, occIdxs t xs = [i1, i2] ∧ i1 < i2 ∧ xs[i1]? = some t ∧ xs[i2]? = some t := by
  have hl : (occIdxs t xs).length = 2 := by rw [occIdxs_length, h]
  obtain ⟨i1, i2, hi⟩ := List.length_eq_two.mp hl
  have hp := occIdxs_pairwise t xs
  rw [hi] at hp
  refine ⟨i1, i2, hi, ?_, ?_, ?_⟩
  · exact List.rel_of_pairwise_cons hp (by simp)
  · exact occIdxs_getElem? t xs i1 (by simp [hi])
  · exact occIdxs_getElem? t xs i2 (by simp [hi])

theorem compIdxs_mem (t : String) (cl : List ComponentSimulation) :
    ∀ c, c ∈ compIdxs t cl ↔ ∃ u, cl[c]? = some u ∧ t ∈ u.nets := by
  induction cl with
  | nil => simp [compIdxs]
  | cons u us ih =>
    intro c
    by_cases h : t ∈ u.nets
    · simp only [compIdxs, if_pos h]
      constructor
      · intro hc
        rcases List.mem_cons.mp hc with rfl | hc
        · exact ⟨u, by simp, h⟩
        · obtain ⟨j, hj, rfl⟩ := List.mem_map.mp hc
          obtain ⟨w, hw, hwt⟩ := (ih j).mp hj
          exact ⟨w, by simpa [List.getElem?_cons_succ] using hw, hwt⟩
      · rintro ⟨w, hw, hwt⟩
        cases c with
        | zero => simp
        | succ j =>
          simp only [List.getElem?_cons_succ] at hw
          exact List.mem_cons.mpr (Or.inr (List.mem_map.mpr ⟨j, (ih j).mpr ⟨w, hw, hwt⟩, rfl⟩))
    · simp only [compIdxs, if_neg h]
      constructor
      · intro hc
        obtain ⟨j, hj, rfl⟩ := List.mem_map.mp hc
        obtain ⟨w, hw, hwt⟩ := (ih j).mp hj
        exact ⟨w, by simpa [List.getElem?_cons_succ] using hw, hwt⟩
      · rintro ⟨w, hw, hwt⟩
        cases c with
        | zero =>
          simp only [List.getElem?_cons_zero, Option.some.injEq] at hw
          subst hw
          exact absurd hwt h
        | succ j =>
          simp only [List.getElem?_cons_succ] at hw
          exact List.mem_map.mpr ⟨j, (ih j).mpr ⟨w, hw, hwt⟩, rfl⟩

theorem compIdxs_pairwise (t : String) (cl : List ComponentSimulation) :
    (compIdxs t cl).Pairwise (· < ·) := by
  induction cl with
  | nil => simp [compIdxs]
  | cons u us ih =>
    have hmap : ((compIdxs t us).map (· + 1)).Pairwise (· < ·) := by
      rw [List.pairwise_map]
      exact ih.imp (by omega)
    by_cases h : t ∈ u.nets
    · simp only [compIdxs, if_pos h]
      refine List.Pairwise.cons ?_ hmap
      intro y hy
      obtain ⟨j, _, rfl⟩ := List.mem_map.mp hy
      omega
    · simpa only [compIdxs, if_neg h] using hmap

theorem flatten_nil_of_all_nil {g : ComponentSimulation → List Nat}
    {cl : List ComponentSimulation} (h : ∀ w ∈ cl, g w = []) :
    (cl.map g).flatten = [] := by
  induction cl with
  | nil => simp
  | cons u us ih =>
    simp only [List.map_cons, List.flatten_cons]
    rw [h u (by simp), ih (fun w hw => h w (by simp [hw]))]
    rfl

theorem flatten_map_single {g : ComponentSimulation → List Nat}
    {cl : List ComponentSimulation} {c : Nat} {u : ComponentSimulation}
    (hc : cl[c]? = some u)
    (hother : ∀ j w, cl[j]? = some w → j ≠ c → g w = []) :
    (cl.map g).flatten = g u := by
  induction cl generalizing c with
  | nil => simp at hc
  | cons x xs ih =>
    cases c with
    | zero =>
      simp only [List.getElem?_cons_zero, Option.some.injEq] at hc
      subst hc
      simp only [List.map_cons, List.flatten_cons]
      have hnil : (xs.map g).flatten = [] := by
        apply flatten_nil_of_all_nil
        intro w hw
        obtain ⟨j, hj⟩ := List.mem_iff_getElem?.mp hw
        exact hother (j + 1) w (by simpa [List.getElem?_cons_succ] using hj) (by omega)
      rw [hnil, List.append_nil]
    | succ c =>
      simp only [List.getElem?_cons_succ] at hc
      simp only [List.map_cons, List.flatten_cons]
      rw [hother 0 x (by simp) (by omega), List.nil_append]
      exact ih hc (fun j w hj hne =>
        hother (j + 1) w (by simpa [List.getElem?_cons_succ] using hj) (by omega))

theorem flatten_map_pair {g : ComponentSimulation → List Nat}
    {cl : List ComponentSimulation} {c1 c2 : Nat} {u1 u2 : ComponentSimulation}
    (h12 : c1 < c2) (hc1 : cl[c1]? = some u1) (hc2 : cl[c2]? = some u2)
    (hother : ∀ j w, cl[j]? = some w → j ≠ c1 → j ≠ c2 → g w = []) :
    (cl.map g).flatten = g u1 ++ g u2 := by
  induction cl generalizing c1 c2 with
  | nil => simp at hc1
  | cons x xs ih =>
    cases c1 with
    | zero =>
      simp only [List.getElem?_cons_zero, Option.some.injEq] at hc1
      subst hc1
      obtain ⟨k, rfl⟩ : ∃ k, c2 = k + 1 := ⟨c2 - 1, by omega⟩
      simp only [List.getElem?_cons_succ] at hc2
      simp only [List.map_cons, List.flatten_cons]
      rw [flatten_map_single hc2 (fun j w hj hne =>
        hother (j + 1) w (by simpa [List.getElem?_cons_succ] using hj) (by omega) (by omega))]
    | succ k1 =>
      obtain ⟨k2, rfl⟩ : ∃ k2, c2 = k2 + 1 := ⟨c2 - 1, by omega⟩
      simp only [List.getElem?_cons_succ] at hc1 hc2
      simp only [List.map_cons, List.flatten_cons]
      rw [hother 0 x (by simp) (by omega) (by omega), List.nil_append]
      exact ih (by omega) hc1 hc2 (fun j w hj h1 h2 =>
        hother (j + 1) w (by simpa [List.getElem?_cons_succ] using hj) (by omega) (by omega))

theorem totalCount_cons (t : String) (u : ComponentSimulation)
    (us : List ComponentSimulation) :
    totalCount t (u :: us) = u.nets.count t + totalCount t us := by
  simp [totalCount, sumBy]

theorem totalCount_all_zero {t : String} {cl : List ComponentSimulation}
    (h : totalCount t cl = 0) : ∀ (j : Nat) (w : ComponentSimulation), cl[j]? = some w → w.nets.count t = 0 := by
  induction cl with
  | nil =>
    intro j w hj
    simp at hj
  | cons u us ih =>
    rw [totalCount_cons] at h
    intro j w hj
    cases j with
    | zero =>
      simp only [List.getElem?_cons_zero, Option.some.injEq] at hj
      subst hj
      omega
    | succ j =>
      simp only [List.getElem?_cons_succ] at hj
      exact ih (by omega) j w hj

theorem totalCount_one_cases {t : String} {cl : List ComponentSimulation}
    (h : totalCount t cl = 1) :
    ∃ c u, cl[c]? = some u ∧ u.nets.count t = 1 ∧
      ∀ (j : Nat) (w : ComponentSimulation), cl[j]? = some w → j ≠ c → w.nets.count t = 0 := by
  induction cl with
  | nil => simp [totalCount, sumBy] at h
  | cons x xs ih =>
    rw [totalCount_cons] at h
    rcases Nat.lt_or_ge (x.nets.count t) 1 with h0 | h1
    · have hxs : totalCount t xs = 1 := by omega
      obtain ⟨c, u, hc, hcnt, hother⟩ := ih hxs
      refine ⟨c + 1, u, by simpa [List.getElem?_cons_succ] using hc, hcnt, ?_⟩
      intro j w hj hne
      cases j with
      | zero =>
        simp only [List.getElem?_cons_zero, Option.some.injEq] at hj
        subst hj
        omega
      | succ j =>
        simp only [List.getElem?_cons_succ] at hj
        exact hother j w hj (by omega)
    · have hx1 : x.nets.count t = 1 := by omega
      have hxs : totalCount t xs = 0 := by omega
      refine ⟨0, x, by simp, hx1, ?_⟩
      intro j w hj hne
      cases j with
      | zero => omega
      | succ j =>
        simp only [List.getElem?_cons_succ] at hj
        exact totalCount_all_zero hxs j w hj

theorem totalCount_two_cases {t : String} {cl : List ComponentSimulation}
    (h : totalCount t cl = 2) :
    (∃ c u, cl[c]? = some u ∧ u.nets.count t = 2 ∧
      ∀ (j : Nat) (w : ComponentSimulation), cl[j]? = some w → j ≠ c → w.nets.count t = 0) ∨
    (∃ c1 c2 u1 u2, c1 < c2 ∧ cl[c1]? = some u1 ∧ cl[c2]? = some u2 ∧
      u1.nets.count t = 1 ∧ u2.nets.count t = 1 ∧
      ∀ (j : Nat) (w : ComponentSimulation), cl[j]? = some w → j ≠ c1 → j ≠ c2 → w.nets.count t = 0) := by
  induction cl with
  | nil => simp [totalCount, sumBy] at h
  | cons x xs ih =>
    rw [totalCount_cons] at h
    rcases Nat.lt_or_ge (x.nets.count t) 1 with h0 | h1
    · have hxs : totalCount t xs = 2 := by omega
      rcases ih hxs with ⟨c, u, hc, hcnt, hother⟩ | ⟨c1, c2, u1, u2, h12, hc1, hc2, hn1, hn2, hother⟩
      · refine Or.inl ⟨c + 1, u, by simpa [List.getElem?_cons_succ] using hc, hcnt, ?_⟩
        intro j w hj hne
        cases j with
        | zero =>
          simp only [List.getElem?_cons_zero, Option.some.injEq] at hj
          subst hj
          omega
        | succ j =>
          simp only [List.getElem?_cons_succ] at hj
          exact hother j w hj (by omega)
      · refine Or.inr ⟨c1 + 1, c2 + 1, u1, u2, by omega,
          by simpa [List.getElem?_cons_succ] using hc1,
          by simpa [List.getElem?_cons_succ] using hc2, hn1, hn2, ?_⟩
        intro j w hj hne1 hne2
        cases j with
        | zero =>
          simp only [List.getElem?_cons_zero, Option.some.injEq] at hj
          subst hj
          omega
        | succ j =>
          simp only [List.getElem?_cons_succ] at hj
          exact hother j w hj (by omega) (by omega)
    · rcases Nat.lt_or_ge (x.nets.count t) 2 with h2 | h2
      · have hx1 : x.nets.count t = 1 := by omega
        have hxs : totalCount t xs = 1 := by omega
        obtain ⟨c, u, hc, hcnt, hother⟩ := totalCount_one_cases hxs
        refine Or.inr ⟨0, c + 1, x, u, by omega, by simp, by
          simpa [List.getElem?_cons_succ] using hc, hx1, hcnt, ?_⟩
        intro j w hj hne1 hne2
        cases j with
        | zero => omega
        | succ j =>
          simp only [List.getElem?_cons_succ] at hj
          exact hother j w hj (by omega)
      · have hx2 : x.nets.count t = 2 := by omega
        have hxs : totalCount t xs = 0 := by omega
        refine Or.inl ⟨0, x, by simp, hx2, ?_⟩
        intro j w hj hne
        cases j with
        | zero => omega
        | succ j =>
          simp only [List.getElem?_cons_succ] at hj
          exact totalCount_all_zero hxs j w hj

theorem filter_map_occ_flatten (t : String) (cl : List ComponentSimulation) :
    ((cl.filter (fun c => t ∈ c.nets)).map (fun c => occIdxs t c.nets)).flatten
      = (cl.map (fun c => occIdxs t c.nets)).flatten := by
  induction cl with
  | nil => rfl
  | cons u us ih =>
    by_cases h : t ∈ u.nets
    · simp [List.filter_cons, h, ih]
    · simp [List.filter_cons, h, ih, occIdxs_eq_nil h]

theorem match_ports_caseA {t : String} {cl : List ComponentSimulation} {c : Nat}
    {u : ComponentSimulation} (hc : cl[c]? = some u) (h2 : u.nets.count t = 2)
    (hother : ∀ (j : Nat) (w : ComponentSimulation), cl[j]? = some w → j ≠ c → w.nets.count t = 0) :
    ∃ i1 i2, _match_ports t cl = some (c, i1, c, i2) ∧ i1 < i2 ∧
      u.nets[i1]? = some t ∧ u.nets[i2]? = some t := by
  obtain ⟨i1, i2, hocc, h12, hg1, hg2⟩ := occIdxs_two h2
  have hcomp : compIdxs t cl = [c] := by
    apply pairwise_lt_eq_singleton (compIdxs_pairwise t cl)
    intro x
    rw [compIdxs_mem]
    constructor
    · rintro ⟨w, hw, hwt⟩
      by_contra hne
      have := hother x w hw hne
      rw [← List.count_pos_iff] at hwt
      omega
    · rintro rfl
      exact ⟨u, hc, List.count_pos_iff.mp (by omega)⟩
  have hnet : ((cl.filter (fun c => t ∈ c.nets)).map
      (fun c => occIdxs t c.nets)).flatten = [i1, i2] := by
    rw [filter_map_occ_flatten]
    have hsingle : (cl.map (fun c => occIdxs t c.nets)).flatten = occIdxs t u.nets := by
      apply flatten_map_single hc
      intro j w hj hne
      refine occIdxs_eq_nil ?_
      rw [← List.count_pos_iff]
      have := hother j w hj hne
      omega
    rw [hsingle]
    exact hocc
  refine ⟨i1, i2, ?_, h12, hg1, hg2⟩
  simp only [_match_ports, hcomp, hnet]
  rfl

theorem match_ports_caseB {t : String} {cl : List ComponentSimulation} {c1 c2 : Nat}
    {u1 u2 : ComponentSimulation} (h12 : c1 < c2)
    (hc1 : cl[c1]? = some u1) (hc2 : cl[c2]? = some u2)
    (hn1 : u1.nets.count t = 1) (hn2 : u2.nets.count t = 1)
    (hother : ∀ (j : Nat) (w : ComponentSimulation), cl[j]? = some w → j ≠ c1 → j ≠ c2 → w.nets.count t = 0) :
    ∃ i1 i2, _match_ports t cl = some (c1, i1, c2, i2) ∧
      u1.nets[i1]? = some t ∧ u2.nets[i2]? = some t := by
  obtain ⟨i1, ho1, hg1⟩ := occIdxs_one hn1
  obtain ⟨i2, ho2, hg2⟩ := occIdxs_one hn2
  have hcomp : compIdxs t cl = [c1, c2] := by
    apply pairwise_lt_eq_pair (compIdxs_pairwise t cl) h12
    intro x
    rw [compIdxs_mem]
    constructor
    · rintro ⟨w, hw, hwt⟩
      by_contra hne
      push_neg at hne
      have := hother x w hw hne.1 hne.2
      rw [← List.count_pos_iff] at hwt
      omega
    · rintro (rfl | rfl)
      · exact ⟨u1, hc1, List.count_pos_iff.mp (by omega)⟩
      · exact ⟨u2, hc2, List.count_pos_iff.mp (by omega)⟩
  have hnet : ((cl.filter (fun c => t ∈ c.nets)).map
      (fun c => occIdxs t c.nets)).flatten = [i1, i2] := by
    rw [filter_map_occ_flatten]
    have hpair : (cl.map (fun c => occIdxs t c.nets)).flatten
        = occIdxs t u1.nets ++ occIdxs t u2.nets := by
      apply flatten_map_pair h12 hc1 hc2
      intro j w hj hne1 hne2
      refine occIdxs_eq_nil ?_
      rw [← List.count_pos_iff]
      have := hother j w hj hne1 hne2
      omega
    rw [hpair, ho1, ho2]
    rfl
  refine ⟨i1, i2, ?_, hg1, hg2⟩
  simp only [_match_ports, hcomp, hnet]
  rfl

theorem match_ports_absent {t : String} {cl : List ComponentSimulation}
    (h : ∀ u ∈ cl, t ∉ u.nets) : _match_ports t cl = none := by
  have hcomp : compIdxs t cl = [] := by
    rw [List.eq_nil_iff_forall_not_mem]
    intro x hx
    obtain ⟨w, hw, hwt⟩ := (compIdxs_mem t cl x).mp hx
    exact h w (List.mem_iff_getElem?.mpr ⟨x, hw⟩) hwt
  have hfil : cl.filter (fun c => t ∈ c.nets) = [] := by
    rw [List.filter_eq_nil_iff]
    intro a ha
    simpa using h a ha
  simp only [_match_ports, hcomp, hfil]
  rfl

theorem connectStep_self_eq {n : Nat} {cl : List ComponentSimulation} {c : Nat}
    {u : ComponentSimulation} (hc : cl[c]? = some u)
    (h2 : u.nets.count (natRepr n) = 2)
    (hother : ∀ (j : Nat) (w : ComponentSimulation), cl[j]? = some w → j ≠ c → w.nets.count (natRepr n) = 0) :
    ∃ i1 i2, i1 < i2 ∧
      u.nets[i1]? = some (natRepr n) ∧ u.nets[i2]? = some (natRepr n) ∧
      connectStep n cl = some (cl.set c
        { u with nets := (u.nets.eraseIdx i1).eraseIdx (i2 - 1), ports := u.ports - 2 }) := by
  obtain ⟨i1, i2, hmp, h12, hg1, hg2⟩ := match_ports_caseA hc h2 hother
  refine ⟨i1, i2, h12, hg1, hg2, ?_⟩
  simp only [connectStep, hmp, if_pos rfl, hc, if_pos h12, if_true]

theorem connectStep_merge_eq {n : Nat} {cl : List ComponentSimulation} {c1 c2 : Nat}
    {u1 u2 : ComponentSimulation} (h12 : c1 < c2)
    (hc1 : cl[c1]? = some u1) (hc2 : cl[c2]? = some u2)
    (hn1 : u1.nets.count (natRepr n) = 1) (hn2 : u2.nets.count (natRepr n) = 1)
    (hother : ∀ (j : Nat) (w : ComponentSimulation), cl[j]? = some w → j ≠ c1 → j ≠ c2 →
      w.nets.count (natRepr n) = 0) :
    ∃ i1 i2 u0, cl[0]? = some u0 ∧
      u1.nets[i1]? = some (natRepr n) ∧ u2.nets[i2]? = some (natRepr n) ∧
      connectStep n cl = some ((cl.eraseIdx c1).eraseIdx (c2 - 1) ++
        [{ nets := u1.nets.eraseIdx i1 ++ u2.nets.eraseIdx i2
           f := u0.f
           ports := u1.ports + u2.ports - 2 }]) := by
  obtain ⟨i1, i2, hmp, hg1, hg2⟩ := match_ports_caseB h12 hc1 hc2 hn1 hn2 hother
  obtain ⟨u0, hu0⟩ : ∃ u0, cl[0]? = some u0 := by
    cases cl with
    | nil => simp at hc1
    | cons x xs => exact ⟨x, by simp⟩
  refine ⟨i1, i2, u0, hu0, hg1, hg2, ?_⟩
  have hne : ¬ c1 = c2 := by omega
  simp only [connectStep, hmp, if_neg hne, hc1, hc2, hu0, if_pos h12]

/-! ### Effect of one reduction step on counts, ports and connectivity -/

theorem count_double_erase {xs : List String} {i1 i2 : Nat} {t : String}
    (h12 : i1 < i2) (hg1 : xs[i1]? = some t) (hg2 : xs[i2]? = some t) (s : String) :
    ((xs.eraseIdx i1).eraseIdx (i2 - 1)).count s + (if t = s then 2 else 0)
      = xs.count s := by
  have e1 := count_eraseIdx_add xs i1 t hg1 s
  have hg2' : (xs.eraseIdx i1)[i2 - 1]? = some t := by
    rw [List.getElem?_eraseIdx, if_neg (by omega : ¬ (i2 - 1 < i1)),
      (by omega : i2 - 1 + 1 = i2)]
    exact hg2
  have e2 := count_eraseIdx_add (xs.eraseIdx i1) (i2 - 1) t hg2' s
  rcases eq_or_ne t s with rfl | hne
  · simp at e1 e2 ⊢
    omega
  · simp only [if_neg hne] at e1 e2 ⊢
    omega

theorem totalCount_set_add (t : String) (cl : List ComponentSimulation) (i : Nat)
    (u u' : ComponentSimulation) (h : cl[i]? = some u) :
    totalCount t (cl.set i u') + u.nets.count t = totalCount t cl + u'.nets.count t :=
  sumBy_set_add (fun w => w.nets.count t) cl i u u' h

theorem totalCount_eraseIdx_add (t : String) (cl : List ComponentSimulation) (i : Nat)
    (u : ComponentSimulation) (h : cl[i]? = some u) :
    totalCount t (cl.eraseIdx i) + u.nets.count t = totalCount t cl :=
  sumBy_eraseIdx_add (fun w => w.nets.count t) cl i u h

theorem totalCount_append (t : String) (l1 l2 : List ComponentSimulation) :
    totalCount t (l1 ++ l2) = totalCount t l1 + totalCount t l2 :=
  sumBy_append (fun w => w.nets.count t) l1 l2

theorem totalCount_singleton (t : String) (u : ComponentSimulation) :
    totalCount t [u] = u.nets.count t := by
  simp [totalCount, sumBy]

theorem reflTransGen_lift_edges (φ : Nat → Nat) {r r' : Nat → Nat → Prop}
    (h : ∀ a b, r a b → Relation.ReflTransGen r' (φ a) (φ b)) {a b : Nat}
    (hab : Relation.ReflTransGen r a b) :
    Relation.ReflTransGen r' (φ a) (φ b) := by
  induction hab with
  | refl => exact .refl
  | tail _ hstep ih => exact ih.trans (h _ _ hstep)

theorem mem_of_getElem?_some {α : Type} {l : List α} {i : Nat} {a : α}
    (h : l[i]? = some a) : a ∈ l :=
  List.mem_iff_getElem?.mpr ⟨i, h⟩

theorem loopInv_step_self {n N : Nat} {cl : List ComponentSimulation} {c : Nat}
    {u : ComponentSimulation} (hn : n ≤ N) (hinv : LoopInv n N cl)
    (hc : cl[c]? = some u) (hu2 : u.nets.count (natRepr n) = 2)
    (hother : ∀ (j : Nat) (w : ComponentSimulation), cl[j]? = some w → j ≠ c →
      w.nets.count (natRepr n) = 0) :
    ∃ cl', connectStep n cl = some cl' ∧ LoopInv (n + 1) N cl' := by
  obtain ⟨hne, hcnt2, hcnt0, huniv, hconn⟩ := hinv
  obtain ⟨i1, i2, h12i, hg1, hg2, hstep⟩ := connectStep_self_eq hc hu2 hother
  have hclen : c < cl.length := (List.getElem?_eq_some.mp hc).1
  refine ⟨_, hstep, ?_, ?_, ?_, ?_, ?_⟩
  · -- the live list stays non-empty
    intro hnil
    have := congrArg List.length hnil
    simp [List.length_set] at this
    exact hne this
  · -- ids in [n+1, N] still counted twice
    intro k hk1 hk2
    have hkne : natRepr n ≠ natRepr k := natRepr_ne (by omega)
    have hset := totalCount_set_add (natRepr k) cl c u
      { u with nets := (u.nets.eraseIdx i1).eraseIdx (i2 - 1), ports := u.ports - 2 } hc
    have hde := count_double_erase h12i hg1 hg2 (natRepr k)
    rw [if_neg hkne] at hde
    have := hcnt2 k (by omega) hk2
    simp only at hset
    omega
  · -- ids below n+1 are gone
    intro k hk
    have hset := totalCount_set_add (natRepr k) cl c u
      { u with nets := (u.nets.eraseIdx i1).eraseIdx (i2 - 1), ports := u.ports - 2 } hc
    simp only at hset
    rcases eq_or_ne k n with rfl | hkn
    · have hde := count_double_erase h12i hg1 hg2 (natRepr k)
      rw [if_pos rfl] at hde
      have h2 := hcnt2 k le_rfl hn
      omega
    · have hkne : natRepr n ≠ natRepr k := natRepr_ne (fun hcontra => hkn hcontra.symm)
      have hde := count_double_erase h12i hg1 hg2 (natRepr k)
      rw [if_neg hkne] at hde
      have := hcnt0 k (by omega)
      omega
  · -- identifier universe unchanged
    intro w hw s hs
    rcases List.mem_or_eq_of_mem_set hw with hw | rfl
    · exact huniv w hw s hs
    · have hsub : ((u.nets.eraseIdx i1).eraseIdx (i2 - 1)).Sublist u.nets :=
        (List.eraseIdx_sublist _ _).trans (List.eraseIdx_sublist _ _)
      exact huniv u (mem_of_getElem?_some hc) s (hsub.subset hs)
  · -- connectivity through the remaining internal nets
    intro i j hi hj
    rw [List.length_set] at hi hj
    refine reflTransGen_lift_edges id ?_ (hconn i j hi hj)
    intro a b hab
    obtain ⟨w1, w2, ha, hb, k, hk1, hk2, hm1, hm2⟩ := hab
    rcases eq_or_ne k n with rfl | hkn
    · -- the consumed net only touches the unit being reduced: no move needed
      have ha' : a = c := by
        by_contra hac
        have := hother a w1 ha hac
        rw [← List.count_pos_iff] at hm1
        omega
      have hb' : b = c := by
        by_contra hbc
        have := hother b w2 hb hbc
        rw [← List.count_pos_iff] at hm2
        omega
      rw [ha', hb']
    · -- any other edge survives in place
      have hk1' : n + 1 ≤ k := by omega
      have hkne : natRepr n ≠ natRepr k := natRepr_ne (fun hcontra => hkn hcontra.symm)
      have hde := count_double_erase h12i hg1 hg2 (natRepr k)
      rw [if_neg hkne] at hde
      refine Relation.ReflTransGen.single ?_
      have hmem : ∀ (x : Nat) (w : ComponentSimulation), cl[x]? = some w →
          natRepr k ∈ w.nets →
          ∃ w', (cl.set c ⟨(u.nets.eraseIdx i1).eraseIdx (i2 - 1), u.f, u.ports - 2⟩)[x]?
            = some w' ∧ natRepr k ∈ w'.nets := by
        intro x w hx hmemx
        rcases eq_or_ne c x with rfl | hcx
        · have hwu : w = u := by
            rw [hx] at hc
            exact Option.some.inj hc
          refine ⟨⟨(u.nets.eraseIdx i1).eraseIdx (i2 - 1), u.f, u.ports - 2⟩, ?_, ?_⟩
          · rw [List.getElem?_set, if_pos rfl, if_pos hclen]
          · have hpos : 0 < w.nets.count (natRepr k) := List.count_pos_iff.mpr hmemx
            rw [← List.count_pos_iff]
            show 0 < ((u.nets.eraseIdx i1).eraseIdx (i2 - 1)).count (natRepr k)
            rw [hwu] at hpos
            omega
        · refine ⟨w, ?_, hmemx⟩
          rw [List.getElem?_set, if_neg hcx]
          exact hx
      obtain ⟨w1', hga, hma⟩ := hmem a w1 ha hm1
      obtain ⟨w2', hgb, hmb⟩ := hmem b w2 hb hm2
      exact ⟨w1', w2', hga, hgb, k, hk1', hk2, hma, hmb⟩

theorem loopInv_step_merge {n N : Nat} {cl : List ComponentSimulation} {c1 c2 : Nat}
    {u1 u2 : ComponentSimulation} (hn : n ≤ N) (hinv : LoopInv n N cl)
    (h12 : c1 < c2) (hc1 : cl[c1]? = some u1) (hc2 : cl[c2]? = some u2)
    (hn1 : u1.nets.count (natRepr n) = 1) (hn2 : u2.nets.count (natRepr n) = 1)
    (hother : ∀ (j : Nat) (w : ComponentSimulation), cl[j]? = some w → j ≠ c1 → j ≠ c2 →
      w.nets.count (natRepr n) = 0) :
    ∃ cl', connectStep n cl = some cl' ∧ LoopInv (n + 1) N cl' := by
  obtain ⟨hne, hcnt2, hcnt0, huniv, hconn⟩ := hinv
  obtain ⟨i1, i2, u0, hu0, hg1, hg2, hstep⟩ := connectStep_merge_eq h12 hc1 hc2 hn1 hn2 hother
  have hlen2 : c2 < cl.length := (List.getElem?_eq_some.mp hc2).1
  have hlen1 : c1 < cl.length := by omega
  have hL2 : 2 ≤ cl.length := by omega
  have hc2' : (cl.eraseIdx c1)[c2 - 1]? = some u2 := by
    rw [List.getElem?_eraseIdx, if_neg (by omega : ¬ (c2 - 1 < c1)),
      (by omega : c2 - 1 + 1 = c2)]
    exact hc2
  have hMlen : ((cl.eraseIdx c1).eraseIdx (c2 - 1)).length = cl.length - 2 := by
    rw [List.length_eraseIdx, List.length_eraseIdx, if_pos hlen1]
    rw [if_pos (by omega : c2 - 1 < cl.length - 1)]
    omega
  have hM_get : ∀ j : Nat, ((cl.eraseIdx c1).eraseIdx (c2 - 1))[j]? =
      if j < c1 then cl[j]? else if j + 1 < c2 then cl[j + 1]? else cl[j + 2]? := by
    intro j
    simp only [List.getElem?_eraseIdx]
    split_ifs <;> first | rfl | (congr 1; omega) | omega
  have hget_comb : ((cl.eraseIdx c1).eraseIdx (c2 - 1) ++
      [(⟨u1.nets.eraseIdx i1 ++ u2.nets.eraseIdx i2, u0.f,
        u1.ports + u2.ports - 2⟩ : ComponentSimulation)])[cl.length - 2]? =
      some ⟨u1.nets.eraseIdx i1 ++ u2.nets.eraseIdx i2, u0.f, u1.ports + u2.ports - 2⟩ := by
    rw [← hMlen]
    exact List.getElem?_concat_length _ _
  have hget_other : ∀ x : Nat, x < cl.length → x ≠ c1 → x ≠ c2 →
      ((cl.eraseIdx c1).eraseIdx (c2 - 1) ++
        [(⟨u1.nets.eraseIdx i1 ++ u2.nets.eraseIdx i2, u0.f,
          u1.ports + u2.ports - 2⟩ : ComponentSimulation)])[
            if x < c1 then x else if x < c2 then x - 1 else x - 2]? = cl[x]? := by
    intro x hx hne1 hne2
    have hm : (if x < c1 then x else if x < c2 then x - 1 else x - 2) <
        ((cl.eraseIdx c1).eraseIdx (c2 - 1)).length := by
      rw [hMlen]
      split_ifs <;> omega
    rw [List.getElem?_append, if_pos hm, hM_get]
    split_ifs <;> first | rfl | (congr 1; omega) | omega
  have e1 := fun s => count_eraseIdx_add u1.nets i1 (natRepr n) hg1 s
  have e2 := fun s => count_eraseIdx_add u2.nets i2 (natRepr n) hg2 s
  have hTC : ∀ s : String,
      totalCount s ((cl.eraseIdx c1).eraseIdx (c2 - 1) ++
        [(⟨u1.nets.eraseIdx i1 ++ u2.nets.eraseIdx i2, u0.f,
          u1.ports + u2.ports - 2⟩ : ComponentSimulation)]) +
        u1.nets.count s + u2.nets.count s
      = totalCount s cl + (u1.nets.eraseIdx i1).count s + (u2.nets.eraseIdx i2).count s := by
    intro s
    have d1 := totalCount_eraseIdx_add s cl c1 u1 hc1
    have d2 := totalCount_eraseIdx_add s (cl.eraseIdx c1) (c2 - 1) u2 hc2'
    have happ := totalCount_append s ((cl.eraseIdx c1).eraseIdx (c2 - 1))
      [(⟨u1.nets.eraseIdx i1 ++ u2.nets.eraseIdx i2, u0.f,
        u1.ports + u2.ports - 2⟩ : ComponentSimulation)]
    have hsing := totalCount_singleton s
      (⟨u1.nets.eraseIdx i1 ++ u2.nets.eraseIdx i2, u0.f,
        u1.ports + u2.ports - 2⟩ : ComponentSimulation)
    have hcap : ((⟨u1.nets.eraseIdx i1 ++ u2.nets.eraseIdx i2, u0.f,
        u1.ports + u2.ports - 2⟩ : ComponentSimulation)).nets.count s
        = (u1.nets.eraseIdx i1).count s + (u2.nets.eraseIdx i2).count s :=
      List.count_append s _ _
    omega
  have hcomb_mem : ∀ k' : Nat, natRepr n ≠ natRepr k' →
      (natRepr k' ∈ u1.nets ∨ natRepr k' ∈ u2.nets) →
      natRepr k' ∈ ((⟨u1.nets.eraseIdx i1 ++ u2.nets.eraseIdx i2, u0.f,
        u1.ports + u2.ports - 2⟩ : ComponentSimulation)).nets := by
    intro k' hkn hmem
    have e1' := e1 (natRepr k')
    have e2' := e2 (natRepr k')
    rw [if_neg hkn] at e1' e2'
    show natRepr k' ∈ u1.nets.eraseIdx i1 ++ u2.nets.eraseIdx i2
    rw [List.mem_append]
    rcases hmem with hmem | hmem
    · left
      rw [← List.count_pos_iff] at hmem ⊢
      omega
    · right
      rw [← List.count_pos_iff] at hmem ⊢
      omega
  refine ⟨_, hstep, ?_, ?_, ?_, ?_, ?_⟩
  · simp
  · -- ids in [n+1, N] still counted twice
    intro k hk1 hk2
    have hkne : natRepr n ≠ natRepr k := natRepr_ne (by omega)
    have hT := hTC (natRepr k)
    have e1' := e1 (natRepr k)
    have e2' := e2 (natRepr k)
    rw [if_neg hkne] at e1' e2'
    have := hcnt2 k (by omega) hk2
    omega
  · -- ids below n+1 are gone
    intro k hk
    have hT := hTC (natRepr k)
    rcases eq_or_ne k n with rfl | hkn
    · have e1' := e1 (natRepr k)
      have e2' := e2 (natRepr k)
      rw [if_pos rfl] at e1' e2'
      have h2 := hcnt2 k le_rfl hn
      omega
    · have hkne : natRepr n ≠ natRepr k := natRepr_ne (fun hcontra => hkn hcontra.symm)
      have e1' := e1 (natRepr k)
      have e2' := e2 (natRepr k)
      rw [if_neg hkne] at e1' e2'
      have := hcnt0 k (by omega)
      omega
  · -- identifier universe unchanged
    intro w hw s hs
    rcases List.mem_append.mp hw with hw | hw
    · have hMsub : ((cl.eraseIdx c1).eraseIdx (c2 - 1)).Sublist cl :=
        (List.eraseIdx_sublist _ _).trans (List.eraseIdx_sublist _ _)
      exact huniv w (hMsub.subset hw) s hs
    · have hw' : w = ⟨u1.nets.eraseIdx i1 ++ u2.nets.eraseIdx i2, u0.f,
          u1.ports + u2.ports - 2⟩ := by simpa using hw
      subst hw'
      have : s ∈ u1.nets.eraseIdx i1 ++ u2.nets.eraseIdx i2 := hs
      rcases List.mem_append.mp this with hin | hin
      · exact huniv u1 (mem_of_getElem?_some hc1) s ((List.eraseIdx_sublist _ _).subset hin)
      · exact huniv u2 (mem_of_getElem?_some hc2) s ((List.eraseIdx_sublist _ _).subset hin)
  · -- connectivity through the remaining internal nets
    intro i' j' hi' hj'
    have hlen' : ((cl.eraseIdx c1).eraseIdx (c2 - 1) ++
        [(⟨u1.nets.eraseIdx i1 ++ u2.nets.eraseIdx i2, u0.f,
          u1.ports + u2.ports - 2⟩ : ComponentSimulation)]).length = cl.length - 1 := by
      rw [List.length_append, hMlen]
      simp
      omega
    rw [hlen'] at hi' hj'
    have hpre : ∀ m : Nat, m < cl.length - 1 → ∃ i, i < cl.length ∧
        (if i = c1 ∨ i = c2 then cl.length - 2
          else if i < c1 then i else if i < c2 then i - 1 else i - 2) = m := by
      intro m hm
      rcases eq_or_ne m (cl.length - 2) with rfl | hm2
      · exact ⟨c1, hlen1, by rw [if_pos (Or.inl rfl)]⟩
      · have hmlt : m < cl.length - 2 := by omega
        rcases Nat.lt_or_ge m c1 with h | h
        · refine ⟨m, by omega, ?_⟩
          rw [if_neg (by omega : ¬ (m = c1 ∨ m = c2)), if_pos h]
        · rcases Nat.lt_or_ge (m + 1) c2 with h' | h'
          · refine ⟨m + 1, by omega, ?_⟩
            rw [if_neg (by omega : ¬ (m + 1 = c1 ∨ m + 1 = c2)),
              if_neg (by omega : ¬ m + 1 < c1), if_pos h']
            omega
          · refine ⟨m + 2, by omega, ?_⟩
            rw [if_neg (by omega : ¬ (m + 2 = c1 ∨ m + 2 = c2)),
              if_neg (by omega : ¬ m + 2 < c1), if_neg (by omega : ¬ m + 2 < c2)]
            omega
    obtain ⟨i, hiL, hφi⟩ := hpre i' hi'
    obtain ⟨j, hjL, hφj⟩ := hpre j' hj'
    have hmap : ∀ a b : Nat, adjIdx n N cl a b →
        Relation.ReflTransGen (adjIdx (n + 1) N
          ((cl.eraseIdx c1).eraseIdx (c2 - 1) ++
            [(⟨u1.nets.eraseIdx i1 ++ u2.nets.eraseIdx i2, u0.f,
              u1.ports + u2.ports - 2⟩ : ComponentSimulation)]))
          (if a = c1 ∨ a = c2 then cl.length - 2
            else if a < c1 then a else if a < c2 then a - 1 else a - 2)
          (if b = c1 ∨ b = c2 then cl.length - 2
            else if b < c1 then b else if b < c2 then b - 1 else b - 2) := by
      intro a b hab
      obtain ⟨w1, w2, ha, hb, k, hk1, hk2, hm1, hm2⟩ := hab
      rcases eq_or_ne k n with rfl | hkn
      · -- the consumed net only touches the two merged units
        have ha' : a = c1 ∨ a = c2 := by
          by_contra hac
          push_neg at hac
          have := hother a w1 ha hac.1 hac.2
          rw [← List.count_pos_iff] at hm1
          omega
        have hb' : b = c1 ∨ b = c2 := by
          by_contra hbc
          push_neg at hbc
          have := hother b w2 hb hbc.1 hbc.2
          rw [← List.count_pos_iff] at hm2
          omega
        rw [if_pos ha', if_pos hb']
      · have hk1' : n + 1 ≤ k := by omega
        have hkne : natRepr n ≠ natRepr k := natRepr_ne (fun hcontra => hkn hcontra.symm)
        refine Relation.ReflTransGen.single ?_
        have hunit : ∀ x : Nat, ∀ w : ComponentSimulation, cl[x]? = some w →
            natRepr k ∈ w.nets → ∃ w',
            ((cl.eraseIdx c1).eraseIdx (c2 - 1) ++
              [(⟨u1.nets.eraseIdx i1 ++ u2.nets.eraseIdx i2, u0.f,
                u1.ports + u2.ports - 2⟩ : ComponentSimulation)])[
              if x = c1 ∨ x = c2 then cl.length - 2
                else if x < c1 then x else if x < c2 then x - 1 else x - 2]? = some w' ∧
            natRepr k ∈ w'.nets := by
          intro x w hx hmemx
          by_cases hxc : x = c1 ∨ x = c2
          · rw [if_pos hxc]
            refine ⟨_, hget_comb, ?_⟩
            apply hcomb_mem k hkne
            rcases hxc with rfl | rfl
            · left
              rw [hx] at hc1
              rwa [Option.some.inj hc1] at hmemx
            · right
              rw [hx] at hc2
              rwa [Option.some.inj hc2] at hmemx
          · push_neg at hxc
            rw [if_neg (by tauto : ¬ (x = c1 ∨ x = c2))]
            have hxL : x < cl.length := (List.getElem?_eq_some.mp hx).1
            refine ⟨w, ?_, hmemx⟩
            rw [hget_other x hxL hxc.1 hxc.2]
            exact hx
        obtain ⟨w1', hga, hma⟩ := hunit a w1 ha hm1
        obtain ⟨w2', hgb, hmb⟩ := hunit b w2 hb hm2
        exact ⟨w1', w2', hga, hgb, k, hk1', hk2, hma, hmb⟩
    have := reflTransGen_lift_edges
      (fun i => if i = c1 ∨ i = c2 then cl.length - 2
        else if i < c1 then i else if i < c2 then i - 1 else i - 2)
      hmap (hconn i j hiL hjL)
    simp only at this
    rw [hφi, hφj] at this
    exact this

theorem loopInv_step {n N : Nat} {cl : List ComponentSimulation}
    (hn : n ≤ N) (hinv : LoopInv n N cl) :
    ∃ cl', connectStep n cl = some cl' ∧ LoopInv (n + 1) N cl' := by
  have h2 : totalCount (natRepr n) cl = 2 := hinv.2.1 n le_rfl hn
  rcases totalCount_two_cases h2 with ⟨c, u, hc, hu2, hother⟩ |
    ⟨c1, c2, u1, u2, h12, hc1, hc2, hn1, hn2, hother⟩
  · exact loopInv_step_self hn hinv hc hu2 hother
  · exact loopInv_step_merge hn hinv h12 hc1 hc2 hn1 hn2 hother

theorem reflTransGen_empty_rel {r : Nat → Nat → Prop} (hr : ∀ a b, ¬ r a b)
    {a b : Nat} (h : Relation.ReflTransGen r a b) : a = b := by
  induction h with
  | refl => rfl
  | tail _ hstep _ => exact absurd hstep (hr _ _)

theorem loopInv_final {N : Nat} {cl : List ComponentSimulation}
    (hinv : LoopInv (N + 1) N cl) :
    ∃ u, cl = [u] ∧ ∀ s ∈ u.nets, isExternalNet s = true := by
  obtain ⟨hne, _, hcnt0, huniv, hconn⟩ := hinv
  have hempty : ∀ a b, ¬ adjIdx (N + 1) N cl a b := by
    rintro a b ⟨w1, w2, _, _, k, hk1, hk2, _, _⟩
    omega
  have hlen : cl.length = 1 := by
    have hpos : 0 < cl.length := List.length_pos.mpr hne
    by_contra hlen1
    have h2 : 2 ≤ cl.length := by omega
    have h01 := reflTransGen_empty_rel hempty (hconn 0 1 (by omega) (by omega))
    omega
  obtain ⟨u, rfl⟩ := List.length_eq_one.mp hlen
  refine ⟨u, rfl, ?_⟩
  intro s hs
  rcases huniv u (by simp) s hs with ⟨k, hk, rfl⟩ | hext
  · exfalso
    have h0 := hcnt0 k (by omega)
    rw [totalCount_singleton] at h0
    rw [← List.count_pos_iff] at hs
    omega
  · exact hext

theorem loopInv_run {N : Nat} : ∀ (m n : Nat) (cl : List ComponentSimulation),
    n + m = N + 1 → LoopInv n N cl →
    ∃ cl', (List.range' n m).foldlM (fun s k => connectStep k s) cl = some cl' ∧
      LoopInv (N + 1) N cl' := by
  intro m
  induction m with
  | zero =>
    intro n cl hm hinv
    exact ⟨cl, rfl, by rwa [show n = N + 1 by omega] at hinv⟩
  | succ m ih =>
    intro n cl hm hinv
    have hn : n ≤ N := by omega
    obtain ⟨cl1, hstep, hinv1⟩ := loopInv_step hn hinv
    obtain ⟨cl', hrun, hfin⟩ := ih (n + 1) cl1 (by omega) hinv1
    refine ⟨cl', ?_, hfin⟩
    rw [List.range'_succ, List.foldlM_cons, hstep]
    exact hrun

/-! ### Claim theorems: the reduction loop -/

/-- C2: for every well-formed netlist (each internal net id in
`[0, net_count]` referenced by exactly two component ports, circuit
connected), after the reduction loop of `connect_circuit` processes nets `0`
through `net_count`, exactly one simulation unit remains in the live list and
its net list contains only external (negative-integer string) identifiers. -/
theorem connect_loop_single_external_unit (N : Nat) (cl : List ComponentSimulation)
    (hwf : WellFormedUnits N cl) :
    ∃ u, connectLoop cl N = some [u] ∧ ∀ s ∈ u.nets, isExternalNet s = true := by
  obtain ⟨hcnt, huniv, hconn⟩ := hwf
  have hne : cl ≠ [] := by
    intro h
    have h0 := hcnt 0 (Nat.zero_le N)
    rw [h] at h0
    simp [totalCount, sumBy] at h0
  have hinv : LoopInv 0 N cl :=
    ⟨hne, fun k _ hk => hcnt k hk, fun k hk => absurd hk (Nat.not_lt_zero k), huniv, hconn⟩
  obtain ⟨cl', hrun, hfin⟩ := loopInv_run (N + 1) 0 cl (by omega) hinv
  obtain ⟨u, rfl, hext⟩ := loopInv_final hfin
  refine ⟨u, ?_, hext⟩
  rw [connectLoop, List.range_eq_range']
  exact hrun

theorem connect_loop_single_external_unit_witness :
    ∃ u, connectLoop [(⟨["-1", "0", "0", "-2"], 0, 4⟩ : ComponentSimulation)] 0 = some [u] ∧
      ∀ s ∈ u.nets, isExternalNet s = true := by
  apply connect_loop_single_external_unit
  refine ⟨?_, ?_, ?_⟩
  · intro k hk
    have hk0 : k = 0 := by omega
    subst hk0
    decide
  · intro u hu s hs
    simp only [List.mem_singleton] at hu
    subst hu
    simp only [List.mem_cons, List.not_mem_nil, or_false] at hs
    rcases hs with rfl | rfl | rfl | rfl
    · right
      decide
    · left
      exact ⟨0, le_rfl, by decide⟩
    · left
      exact ⟨0, le_rfl, by decide⟩
    · right
      decide
  · intro i j hi hj
    have hi0 : i = 0 := by
      simp at hi
      exact hi
    have hj0 : j = 0 := by
      simp at hj
      exact hj
    rw [hi0, hj0]

/-- C3: a two-port component whose both ports reference the same internal net
is reduced in place by the self-connection branch of `connect_circuit`'s loop
body: the lower net-list index is deleted first, the higher index is adjusted
down by one, and the unit ends with zero ports and an empty net list. -/
theorem connect_self_loop_reduces_to_zero_ports (n ca : Nat)
    (cl : List ComponentSimulation) (u : ComponentSimulation)
    (hu : cl[ca]? = some u) (hnets : u.nets = [natRepr n, natRepr n])
    (hports : u.ports = 2)
    (hother : ∀ (j : Nat) (w : ComponentSimulation), cl[j]? = some w → j ≠ ca →
      natRepr n ∉ w.nets) :
    connectStep n cl = some (cl.set ca { u with nets := [], ports := 0 }) := by
  have hcnt : u.nets.count (natRepr n) = 2 := by
    rw [hnets]
    simp [List.count_cons]
  have hother' : ∀ (j : Nat) (w : ComponentSimulation), cl[j]? = some w → j ≠ ca →
      w.nets.count (natRepr n) = 0 :=
    fun j w hj hne => List.count_eq_zero.mpr (hother j w hj hne)
  obtain ⟨i1, i2, h12, hg1, hg2, hstep⟩ := connectStep_self_eq hu hcnt hother'
  have hlen2 : i2 < 2 := by
    have := (List.getElem?_eq_some.mp hg2).1
    rw [hnets] at this
    simpa using this
  have hi1 : i1 = 0 := by omega
  have hi2 : i2 = 1 := by omega
  rw [hi1, hi2] at hstep
  have hunit : (⟨(u.nets.eraseIdx 0).eraseIdx (1 - 1), u.f, u.ports - 2⟩ :
      ComponentSimulation) = { u with nets := [], ports := 0 } := by
    rw [hnets, hports]
    rfl
  rw [hstep, hunit]

theorem connect_self_loop_reduces_to_zero_ports_witness :
    connectStep 0 [(⟨["0", "0"], 5, 2⟩ : ComponentSimulation)] =
      some [(⟨[], 5, 0⟩ : ComponentSimulation)] := by
  have h := connect_self_loop_reduces_to_zero_ports 0 0
    [(⟨["0", "0"], 5, 2⟩ : ComponentSimulation)] ⟨["0", "0"], 5, 2⟩
    (by decide) (by decide) (by decide) ?_
  · exact h
  · intro j w hj hne
    cases j with
    | zero => exact absurd rfl hne
    | succ j => simp at hj

/-- C4: one iteration of the reduction loop for a net referenced exactly
twice succeeds and preserves the invariant: the processed net is no longer
referenced while every other identifier keeps its reference count (exactly
one fewer internal net remains), the total port count across live units
strictly decreases, and the frequency tag shared by all units is carried
through unchanged. -/
theorem connect_step_invariant_preserved (n : Nat) (v : Nat)
    (cl : List ComponentSimulation)
    (h2 : totalCount (natRepr n) cl = 2)
    (hpl : ∀ u ∈ cl, u.ports = u.nets.length)
    (hf : ∀ u ∈ cl, u.f = v) :
    ∃ cl', connectStep n cl = some cl' ∧
      totalCount (natRepr n) cl' = 0 ∧
      (∀ s : String, s ≠ natRepr n → totalCount s cl' = totalCount s cl) ∧
      totalPorts cl' < totalPorts cl ∧
      (∀ u ∈ cl', u.f = v) := by
  rcases totalCount_two_cases h2 with ⟨c, u, hc, hu2, hother⟩ |
    ⟨c1, c2, u1, u2, h12, hc1, hc2, hn1, hn2, hother⟩
  · obtain ⟨i1, i2, h12i, hg1, hg2, hstep⟩ := connectStep_self_eq hc hu2 hother
    have hde := fun s => count_double_erase h12i hg1 hg2 s
    have hset := fun s => totalCount_set_add s cl c u
      ⟨(u.nets.eraseIdx i1).eraseIdx (i2 - 1), u.f, u.ports - 2⟩ hc
    refine ⟨_, hstep, ?_, ?_, ?_, ?_⟩
    · have hd := hde (natRepr n)
      rw [if_pos rfl] at hd
      have hs := hset (natRepr n)
      simp only at hs
      omega
    · intro s hs
      have hd := hde s
      rw [if_neg (fun hc' => hs hc'.symm)] at hd
      have hst := hset s
      simp only at hst
      omega
    · have hp := sumBy_set_add (fun w => w.ports) cl c u
        ⟨(u.nets.eraseIdx i1).eraseIdx (i2 - 1), u.f, u.ports - 2⟩ hc
      have hpu : u.ports = u.nets.length := hpl u (mem_of_getElem?_some hc)
      have hcl : u.nets.count (natRepr n) ≤ u.nets.length := List.count_le_length _ _
      simp only at hp
      show totalPorts _ < totalPorts cl
      unfold totalPorts
      omega
    · intro w hw
      rcases List.mem_or_eq_of_mem_set hw with hw | rfl
      · exact hf w hw
      · exact hf u (mem_of_getElem?_some hc)
  · obtain ⟨i1, i2, u0, hu0, hg1, hg2, hstep⟩ :=
      connectStep_merge_eq h12 hc1 hc2 hn1 hn2 hother
    have hlen2 : c2 < cl.length := (List.getElem?_eq_some.mp hc2).1
    have hc2' : (cl.eraseIdx c1)[c2 - 1]? = some u2 := by
      rw [List.getElem?_eraseIdx, if_neg (by omega : ¬ (c2 - 1 < c1)),
        (by omega : c2 - 1 + 1 = c2)]
      exact hc2
    have e1 := fun s => count_eraseIdx_add u1.nets i1 (natRepr n) hg1 s
    have e2 := fun s => count_eraseIdx_add u2.nets i2 (natRepr n) hg2 s
    have hTC : ∀ s : String,
        totalCount s ((cl.eraseIdx c1).eraseIdx (c2 - 1) ++
          [(⟨u1.nets.eraseIdx i1 ++ u2.nets.eraseIdx i2, u0.f,
            u1.ports + u2.ports - 2⟩ : ComponentSimulation)]) +
          u1.nets.count s + u2.nets.count s
        = totalCount s cl + (u1.nets.eraseIdx i1).count s
            + (u2.nets.eraseIdx i2).count s := by
      intro s
      have d1 := totalCount_eraseIdx_add s cl c1 u1 hc1
      have d2 := totalCount_eraseIdx_add s (cl.eraseIdx c1) (c2 - 1) u2 hc2'
      have happ := totalCount_append s ((cl.eraseIdx c1).eraseIdx (c2 - 1))
        [(⟨u1.nets.eraseIdx i1 ++ u2.nets.eraseIdx i2, u0.f,
          u1.ports + u2.ports - 2⟩ : ComponentSimulation)]
      have hsing := totalCount_singleton s
        (⟨u1.nets.eraseIdx i1 ++ u2.nets.eraseIdx i2, u0.f,
          u1.ports + u2.ports - 2⟩ : ComponentSimulation)
      have hcap : ((⟨u1.nets.eraseIdx i1 ++ u2.nets.eraseIdx i2, u0.f,
          u1.ports + u2.ports - 2⟩ : ComponentSimulation)).nets.count s
          = (u1.nets.eraseIdx i1).count s + (u2.nets.eraseIdx i2).count s :=
        List.count_append s _ _
      omega
    refine ⟨_, hstep, ?_, ?_, ?_, ?_⟩
    · have hT := hTC (natRepr n)
      have e1' := e1 (natRepr n)
      have e2' := e2 (natRepr n)
      rw [if_pos rfl] at e1' e2'
      omega
    · intro s hs
      have hT := hTC s
      have e1' := e1 s
      have e2' := e2 s
      rw [if_neg (fun hc' => hs hc'.symm)] at e1' e2'
      omega
    · have p1 := sumBy_eraseIdx_add (fun w => w.ports) cl c1 u1 hc1
      have p2 := sumBy_eraseIdx_add (fun w => w.ports) (cl.eraseIdx c1) (c2 - 1) u2 hc2'
      have papp := sumBy_append (fun w => w.ports) ((cl.eraseIdx c1).eraseIdx (c2 - 1))
        [(⟨u1.nets.eraseIdx i1 ++ u2.nets.eraseIdx i2, u0.f,
          u1.ports + u2.ports - 2⟩ : ComponentSimulation)]
      have hp1 : u1.ports = u1.nets.length := hpl u1 (mem_of_getElem?_some hc1)
      have hcl1 : u1.nets.count (natRepr n) ≤ u1.nets.length := List.count_le_length _ _
      have hsing : sumBy (fun w => w.ports)
          [(⟨u1.nets.eraseIdx i1 ++ u2.nets.eraseIdx i2, u0.f,
            u1.ports + u2.ports - 2⟩ : ComponentSimulation)]
          = u1.ports + u2.ports - 2 := by
        simp [sumBy]
      show totalPorts _ < totalPorts cl
      unfold totalPorts
      simp only at p1 p2 papp
      omega
    · intro w hw
      rcases List.mem_append.mp hw with hw | hw
      · have hMsub : ((cl.eraseIdx c1).eraseIdx (c2 - 1)).Sublist cl :=
          (List.eraseIdx_sublist _ _).trans (List.eraseIdx_sublist _ _)
        exact hf w (hMsub.subset hw)
      · have hw' : w = ⟨u1.nets.eraseIdx i1 ++ u2.nets.eraseIdx i2, u0.f,
            u1.ports + u2.ports - 2⟩ := by simpa using hw
        subst hw'
        exact hf u0 (mem_of_getElem?_some hu0)

theorem connect_step_invariant_preserved_witness :
    ∃ cl', connectStep 0 [(⟨["0", "0", "-1"], 7, 3⟩ : ComponentSimulation)] = some cl' ∧
      totalCount (natRepr 0) cl' = 0 ∧
      (∀ s : String, s ≠ natRepr 0 →
        totalCount s cl' = totalCount s [(⟨["0", "0", "-1"], 7, 3⟩ : ComponentSimulation)]) ∧
      totalPorts cl' < totalPorts [(⟨["0", "0", "-1"], 7, 3⟩ : ComponentSimulation)] ∧
      (∀ u ∈ cl', u.f = 7) :=
  connect_step_invariant_preserved 0 7 _ (by decide) (by decide) (by decide)

/-- C6: a net identifier that occurs in no component's net list makes
`_match_ports` fail (the indexing of the first component index raises; in the
total embedding the result is `none`) instead of returning a four-element
match. -/
theorem match_ports_missing_net_fails (t : String) (cl : List ComponentSimulation)
    (h : ∀ u ∈ cl, t ∉ u.nets) : _match_ports t cl = none :=
  match_ports_absent h

theorem match_ports_missing_net_fails_witness :
    _match_ports "7" [(⟨["-1", "0"], 0, 2⟩ : ComponentSimulation)] = none :=
  match_ports_missing_net_fails "7" _ (by decide)

/-! ### State decomposition of the parser -/

theorem ite_lt_max (a v : Int) : (if a < v then v else a) = max a v := by
  rcases le_total a v with h | h
  · rw [max_eq_right h]
    split_ifs <;> omega
  · rw [max_eq_left h]
    split_ifs <;> omega

theorem parseItem_shape (reg : String → Option Component) (comp : Option Component)
    (nets : List String) (a : Int) (item : String) :
    parseItem reg (comp, nets, a) item = none ∨
    (∃ comp', parseItem reg (comp, nets, a) item = some (comp', nets, a)) ∨
    (∃ net v, parseInt? net = some v ∧
      parseItem reg (comp, nets, a) item = some (comp, nets ++ [net],
        if a < v then v else a)) := by
  simp only [parseItem]
  by_cases hN : strContains item "N$"
  · simp only [hN, if_true]
    cases hv : parseInt? (strReplace item "N$" "") with
    | none => exact Or.inl rfl
    | some v => exact Or.inr (Or.inr ⟨_, v, hv, rfl⟩)
  · simp only [hN, Bool.false_eq_true, if_false]
    cases comp with
    | none =>
      cases hr : reg item with
      | none => exact Or.inl rfl
      | some c => exact Or.inr (Or.inl ⟨some c, rfl⟩)
    | some c =>
      by_cases h1 : strContains item "lay_x="
      · simp only [h1, if_true]
        cases hx : pyFloat? (strReplace item "lay_x=" "") with
        | none => exact Or.inl rfl
        | some lit => exact Or.inr (Or.inl ⟨_, rfl⟩)
      · simp only [h1, Bool.false_eq_true, if_false]
        by_cases h2 : strContains item "lay_y="
        · simp only [h2, if_true]
          cases hx : pyFloat? (strReplace item "lay_y=" "") with
          | none => exact Or.inl rfl
          | some lit => exact Or.inr (Or.inl ⟨_, rfl⟩)
        · simp only [h2, Bool.false_eq_true, if_false]
          by_cases h3 : strContains item "radius="
          · simp only [h3, if_true]
            cases hx : pyFloat? (strReplace item "radius=" "") with
            | none => exact Or.inl rfl
            | some lit => exact Or.inr (Or.inl ⟨_, rfl⟩)
          · simp only [h3, Bool.false_eq_true, if_false]
            by_cases h4 : strContains item "wg_length="
            · simp only [h4, if_true]
              cases hx : strToSci (strReplace item "wg_length=" "") with
              | error e => exact Or.inl rfl
              | ok v => exact Or.inr (Or.inl ⟨_, rfl⟩)
            · simp only [h4, Bool.false_eq_true, if_false]
              by_cases h5 : strContains item "wg_width="
              · simp only [h5, if_true]
                cases hx : strToSci (strReplace item "wg_width=" "") with
                | error e => exact Or.inl rfl
                | ok v => exact Or.inr (Or.inl ⟨_, rfl⟩)
              · simp only [h5, Bool.false_eq_true, if_false]
                by_cases h6 : strContains item "points="
                · simp only [h6, if_true]
                  cases hx : parsePointList (splitSeq "],[".data
                      (strReplace (strReplace (strReplace item "points=" "")
                        "\x22[[" "") "]]\x22" "").data) with
                  | none => exact Or.inl rfl
                  | some pts => exact Or.inr (Or.inl ⟨_, rfl⟩)
                · simp only [h6, Bool.false_eq_true, if_false]
                  exact Or.inr (Or.inl ⟨_, rfl⟩)

theorem parseItem_shift (reg : String → Option Component) (comp : Option Component)
    (nets : List String) (a : Int) (item : String) (h0 : 0 ≤ a) :
    parseItem reg (comp, nets, a) item =
      (parseItem reg (comp, nets, 0) item).map
        (fun r => (r.1, r.2.1, max a r.2.2)) := by
  have hmax0 : max a (0 : Int) = a := max_eq_left h0
  simp only [parseItem]
  by_cases hN : strContains item "N$"
  · simp only [hN, if_true]
    cases hv : parseInt? (strReplace item "N$" "") with
    | none => rfl
    | some v =>
      simp only [Option.map_some]
      simp only [ite_lt_max]
      simp [← max_assoc, hmax0]
  · simp only [hN, Bool.false_eq_true, if_false]
    cases comp with
    | none =>
      cases hr : reg item with
      | none => rfl
      | some c =>
        simp [hmax0]
    | some c =>
      by_cases h1 : strContains item "lay_x="
      · simp only [h1, if_true]
        cases hx : pyFloat? (strReplace item "lay_x=" "") with
        | none => rfl
        | some lit =>
          simp [hmax0]
      · simp only [h1, Bool.false_eq_true, if_false]
        by_cases h2 : strContains item "lay_y="
        · simp only [h2, if_true]
          cases hx : pyFloat? (strReplace item "lay_y=" "") with
          | none => rfl
          | some lit =>
            simp [hmax0]
        · simp only [h2, Bool.false_eq_true, if_false]
          by_cases h3 : strContains item "radius="
          · simp only [h3, if_true]
            cases hx : pyFloat? (strReplace item "radius=" "") with
            | none => rfl
            | some lit =>
              simp [hmax0]
          · simp only [h3, Bool.false_eq_true, if_false]
            by_cases h4 : strContains item "wg_length="
            · simp only [h4, if_true]
              cases hx : strToSci (strReplace item "wg_length=" "") with
              | error e => rfl
              | ok v =>
                simp [hmax0]
            · simp only [h4, Bool.false_eq_true, if_false]
              by_cases h5 : strContains item "wg_width="
              · simp only [h5, if_true]
                cases hx : strToSci (strReplace item "wg_width=" "") with
                | error e => rfl
                | ok v =>
                  simp [hmax0]
              · simp only [h5, Bool.false_eq_true, if_false]
                by_cases h6 : strContains item "points="
                · simp only [h6, if_true]
                  cases hx : parsePointList (splitSeq "],[".data
                      (strReplace (strReplace (strReplace item "points=" "")
                        "\x22[[" "") "]]\x22" "").data) with
                  | none => rfl
                  | some pts =>
                    simp [hmax0]
                · simp only [h6, Bool.false_eq_true, if_false]
                  simp [hmax0]

theorem parseItems_shift (reg : String → Option Component) :
    ∀ (items : List String) (comp : Option Component) (nets : List String) (a : Int),
    0 ≤ a →
    parseItems reg (comp, nets, a) items =
      (parseItems reg (comp, nets, 0) items).map (fun r => (r.1, r.2.1, max a r.2.2)) := by
  intro items
  induction items with
  | nil =>
    intro comp nets a h0
    simp [parseItems, max_eq_left h0]
  | cons item rest ih =>
    intro comp nets a h0
    simp only [parseItems]
    rw [parseItem_shift reg comp nets a item h0]
    cases hbase : parseItem reg (comp, nets, 0) item with
    | none => rfl
    | some acc2 =>
      obtain ⟨c2, n2, m2⟩ := acc2
      have hm2 : 0 ≤ m2 := by
        rcases parseItem_shape reg comp nets 0 item with hsh | ⟨c', hsh⟩ | ⟨net, v, hv, hsh⟩
        · rw [hsh] at hbase
          cases hbase
        · rw [hsh] at hbase
          simp only [Option.some.injEq, Prod.mk.injEq] at hbase
          omega
        · rw [ite_lt_max] at hsh
          rw [hsh] at hbase
          simp only [Option.some.injEq, Prod.mk.injEq] at hbase
          have := le_max_left (0 : Int) v
          omega
      simp only [Option.map_some']
      rw [ih c2 n2 (max a m2) (le_trans h0 (le_max_left a m2)), ih c2 n2 m2 hm2]
      cases hb0 : parseItems reg (c2, n2, 0) rest with
      | none => rfl
      | some r => simp [max_assoc]

theorem parseItems_lower {reg : String → Option Component} {items : List String}
    {comp : Option Component} {nets : List String} {a : Int}
    {c' : Option Component} {n' : List String} {m : Int} (h0 : 0 ≤ a)
    (h : parseItems reg (comp, nets, a) items = some (c', n', m)) : a ≤ m := by
  rw [parseItems_shift reg items comp nets a h0] at h
  cases hb : parseItems reg (comp, nets, 0) items with
  | none =>
    rw [hb] at h
    simp at h
  | some r =>
    rw [hb] at h
    simp only [Option.map_some', Option.some.injEq, Prod.mk.injEq] at h
    obtain ⟨_, _, h3⟩ := h
    rw [← h3]
    exact le_max_left _ _

theorem parseItems_nets_prefix {reg : String → Option Component} :
    ∀ {items : List String} {comp : Option Component} {nets : List String} {a : Int}
      {c' : Option Component} {n' : List String} {m : Int},
    parseItems reg (comp, nets, a) items = some (c', n', m) → nets <+: n' := by
  intro items
  induction items with
  | nil =>
    intro comp nets a c' n' m h
    simp only [parseItems, Option.some.injEq, Prod.mk.injEq] at h
    rw [← h.2.1]
  | cons item rest ih =>
    intro comp nets a c' n' m h
    simp only [parseItems] at h
    rcases parseItem_shape reg comp nets a item with hsh | ⟨comp2, hsh⟩ | ⟨net, v, hv, hsh⟩
    · rw [hsh] at h
      cases h
    · rw [hsh] at h
      exact ih h
    · rw [hsh] at h
      exact (List.prefix_append nets [net]).trans (ih h)

theorem parseItems_bound {reg : String → Option Component} :
    ∀ {items : List String} {comp : Option Component} {nets : List String} {a : Int}
      {c' : Option Component} {n' : List String} {m : Int} {bound : Int},
    parseItems reg (comp, nets, a) items = some (c', n', m) → a ≤ bound →
    (∀ s ∈ n', ∀ v : Int, parseInt? s = some v → v ≤ bound) → m ≤ bound := by
  intro items
  induction items with
  | nil =>
    intro comp nets a c' n' m bound h ha _
    simp only [parseItems, Option.some.injEq, Prod.mk.injEq] at h
    omega
  | cons item rest ih =>
    intro comp nets a c' n' m bound h ha hvals
    simp only [parseItems] at h
    rcases parseItem_shape reg comp nets a item with hsh | ⟨comp2, hsh⟩ | ⟨net, v, hv, hsh⟩
    · rw [hsh] at h
      cases h
    · rw [hsh] at h
      exact ih h ha hvals
    · rw [hsh] at h
      have hmem : net ∈ n' := by
        have hpre : nets ++ [net] <+: n' := parseItems_nets_prefix h
        exact hpre.subset (by simp)
      have hv' : v ≤ bound := hvals net hmem v hv
      refine ih h ?_ hvals
      rw [ite_lt_max]
      exact max_le ha hv'

theorem parse_line_shift (reg : String → Option Component) (st : ObjectModelNetlist)
    (els : List String) (h0 : 0 ≤ st.net_count) :
    _parse_line reg st els = (_parse_line reg omInit els).map
      (fun r => ⟨st.component_list ++ r.component_list, max st.net_count r.net_count⟩) := by
  unfold _parse_line
  have homc : omInit.component_list = [] := rfl
  have homn : omInit.net_count = 0 := rfl
  rw [homc, homn]
  rw [parseItems_shift reg (els.drop 1) none [] st.net_count h0]
  cases hb : parseItems reg (none, [], 0) (els.drop 1) with
  | none => rfl
  | some acc =>
    obtain ⟨comp, nets, m⟩ := acc
    cases comp with
    | none => rfl
    | some c => simp

theorem parse_line_lower {reg : String → Option Component} {st : ObjectModelNetlist}
    {els : List String} {r : ObjectModelNetlist}
    (h0 : 0 ≤ st.net_count) (h : _parse_line reg st els = some r) :
    st.net_count ≤ r.net_count := by
  unfold _parse_line at h
  cases hb : parseItems reg (none, [], st.net_count) (els.drop 1) with
  | none =>
    rw [hb] at h
    cases h
  | some acc =>
    obtain ⟨comp, nets, m⟩ := acc
    rw [hb] at h
    cases comp with
    | none => cases h
    | some c =>
      simp only [Option.some.injEq] at h
      have := parseItems_lower h0 hb
      rw [← h]
      exact this

theorem parse_go_shift (reg : String → Option Component) :
    ∀ (lines : List (List Char)) (st : ObjectModelNetlist), 0 ≤ st.net_count →
    parse_text_go reg st lines = (parse_text_go reg omInit lines).map
      (fun r => ⟨st.component_list ++ r.component_list, max st.net_count r.net_count⟩) := by
  intro lines
  induction lines with
  | nil =>
    intro st h0
    simp only [parse_text_go, Option.map_some']
    simp [omInit, max_eq_left h0]
  | cons line rest ih =>
    intro st h0
    simp only [parse_text_go]
    cases htok : tokens line with
    | nil => exact ih st h0
    | cons first ts =>
      by_cases hEnds : strContains first ".ends"
      · simp only [hEnds, if_true, Option.map_some']
        simp [omInit, max_eq_left h0]
      · simp only [hEnds, Bool.false_eq_true, if_false]
        by_cases hDir : (strContains first "." || strContains first "*") = true
        · simp only [hDir, if_true]
          exact ih st h0
        · rw [Bool.not_eq_true] at hDir
          simp only [hDir, Bool.false_eq_true, if_false]
          rw [parse_line_shift reg st (first :: ts) h0]
          cases hb : _parse_line reg omInit (first :: ts) with
          | none => rfl
          | some r1 =>
            simp only [Option.map_some']
            have h1 : (0 : Int) ≤ r1.net_count :=
              parse_line_lower (le_refl (0 : Int)) hb
            rw [ih ⟨st.component_list ++ r1.component_list,
              max st.net_count r1.net_count⟩ (le_trans h0 (le_max_left _ _))]
            rw [ih r1 h1]
            cases hgo : parse_text_go reg omInit rest with
            | none => rfl
            | some r2 => simp [List.append_assoc, max_assoc]

theorem parse_go_nonneg {reg : String → Option Component} :
    ∀ {lines : List (List Char)} {st r : ObjectModelNetlist}, 0 ≤ st.net_count →
    parse_text_go reg st lines = some r → 0 ≤ r.net_count := by
  intro lines
  induction lines with
  | nil =>
    intro st r h0 h
    simp only [parse_text_go, Option.some.injEq] at h
    rw [← h]
    exact h0
  | cons line rest ih =>
    intro st r h0 h
    simp only [parse_text_go] at h
    cases htok : tokens line with
    | nil =>
      rw [htok] at h
      exact ih h0 h
    | cons first ts =>
      rw [htok] at h
      by_cases hEnds : strContains first ".ends"
      · simp only [hEnds, if_true, Option.some.injEq] at h
        rw [← h]
        exact h0
      · simp only [hEnds, Bool.false_eq_true, if_false] at h
        by_cases hDir : (strContains first "." || strContains first "*") = true
        · simp only [hDir, if_true] at h
          exact ih h0 h
        · rw [Bool.not_eq_true] at hDir
          simp only [hDir, Bool.false_eq_true, if_false] at h
          cases hb : _parse_line reg st (first :: ts) with
          | none =>
            rw [hb] at h
            cases h
          | some st1 =>
            rw [hb] at h
            have h1 : (0 : Int) ≤ st1.net_count :=
              le_trans h0 (parse_line_lower h0 hb)
            exact ih h1 h

theorem parse_go_zero {reg : String → Option Component} :
    ∀ {lines : List (List Char)} {st r : ObjectModelNetlist},
    0 ≤ st.net_count → st.net_count ≤ 0 →
    parse_text_go reg st lines = some r →
    (∀ c ∈ r.component_list, ∀ s ∈ c.nets, ∀ v : Int, parseInt? s = some v → v ≤ 0) →
    r.net_count ≤ 0 := by
  intro lines
  induction lines with
  | nil =>
    intro st r h0 hle h _
    simp only [parse_text_go, Option.some.injEq] at h
    rw [← h]
    exact hle
  | cons line rest ih =>
    intro st r h0 hle h hvals
    simp only [parse_text_go] at h
    cases htok : tokens line with
    | nil =>
      rw [htok] at h
      exact ih h0 hle h hvals
    | cons first ts =>
      rw [htok] at h
      by_cases hEnds : strContains first ".ends"
      · simp only [hEnds, if_true, Option.some.injEq] at h
        rw [← h]
        exact hle
      · simp only [hEnds, Bool.false_eq_true, if_false] at h
        by_cases hDir : (strContains first "." || strContains first "*") = true
        · simp only [hDir, if_true] at h
          exact ih h0 hle h hvals
        · rw [Bool.not_eq_true] at hDir
          simp only [hDir, Bool.false_eq_true, if_false] at h
          cases hb : _parse_line reg st (first :: ts) with
          | none =>
            rw [hb] at h
            cases h
          | some st1 =>
            rw [hb] at h
            have h' : parse_text_go reg st1 rest = some r := h
            have h1 : (0 : Int) ≤ st1.net_count :=
              le_trans h0 (parse_line_lower h0 hb)
            -- the freshly appended component belongs to the final list
            have hpre : ∃ tail, r.component_list = st1.component_list ++ tail := by
              have hsh := parse_go_shift reg rest st1 h1
              rw [hsh] at h'
              cases hgo : parse_text_go reg omInit rest with
              | none =>
                rw [hgo] at h'
                cases h'
              | some r2 =>
                rw [hgo] at h'
                simp only [Option.map_some', Option.some.injEq] at h'
                exact ⟨r2.component_list, by rw [← h']⟩
            have hst1 : st1.net_count ≤ 0 := by
              unfold _parse_line at hb
              cases hit : parseItems reg (none, [], st.net_count)
                  ((first :: ts).drop 1) with
              | none =>
                rw [hit] at hb
                cases hb
              | some acc =>
                obtain ⟨comp, nets, m⟩ := acc
                rw [hit] at hb
                cases comp with
                | none => cases hb
                | some c =>
                  simp only [Option.some.injEq] at hb
                  have hm : m ≤ 0 := by
                    refine parseItems_bound hit hle ?_
                    intro s hs v hv
                    obtain ⟨tail, htail⟩ := hpre
                    have hcomp : ({ c with nets := nets } : Component) ∈
                        r.component_list := by
                      rw [htail, ← hb]
                      simp
                    exact hvals _ hcomp s hs v hv
                  rw [← hb]
                  exact hm
            exact ih h1 hst1 h' hvals

/-! ### Claim theorems: the parser state -/

/-- C8: parsing the same netlist text twice yields component records equal in
all public fields and an identical resulting `net_count`: the second pass
appends a field-for-field equal copy of the first pass's records and leaves
`net_count` unchanged. -/
theorem parse_text_idempotent (reg : String → Option Component) (text : String)
    (s1 : ObjectModelNetlist) (h1 : parse_text reg omInit text = some s1) :
    ∃ s2, parse_text reg s1 text = some s2 ∧
      s2.component_list = s1.component_list ++ s1.component_list ∧
      s2.net_count = s1.net_count := by
  unfold parse_text at h1
  have h0 : (0 : Int) ≤ s1.net_count := parse_go_nonneg (le_refl 0) h1
  have hsh := parse_go_shift reg (splitLines text) s1 h0
  refine ⟨⟨s1.component_list ++ s1.component_list, max s1.net_count s1.net_count⟩,
    ?_, rfl, ?_⟩
  · unfold parse_text
    rw [hsh, h1]
    rfl
  · simp

theorem parse_text_idempotent_witness :
    ∃ s2, parse_text reg0
      { component_list := [{ name := "wgA", nets := ["1", "-1"], lay_x := none
                             lay_y := none, radius := none, length := none
                             width := none, points := [] }], net_count := 1 }
      "c1 wgA N$1 N$-1" = some s2 ∧
      s2.component_list =
        [{ name := "wgA", nets := ["1", "-1"], lay_x := none, lay_y := none
           radius := none, length := none, width := none, points := [] }] ++
        [{ name := "wgA", nets := ["1", "-1"], lay_x := none, lay_y := none
           radius := none, length := none, width := none, points := [] }] ∧
      s2.net_count = 1 :=
  parse_text_idempotent reg0 "c1 wgA N$1 N$-1" _ (by decide)

/-- C10: `parse_text` accumulates on its instance: a second call appends the
second text's component records to the first call's and updates `net_count`
to the running maximum over both calls. -/
theorem parse_text_accumulates (reg : String → Option Component) (t1 t2 : String)
    (s1 r2 : ObjectModelNetlist)
    (h1 : parse_text reg omInit t1 = some s1)
    (h2 : parse_text reg omInit t2 = some r2) :
    ∃ s2, parse_text reg s1 t2 = some s2 ∧
      s2.component_list = s1.component_list ++ r2.component_list ∧
      s2.net_count = max s1.net_count r2.net_count := by
  unfold parse_text at h1 h2
  have h0 : (0 : Int) ≤ s1.net_count := parse_go_nonneg (le_refl 0) h1
  have hsh := parse_go_shift reg (splitLines t2) s1 h0
  refine ⟨⟨s1.component_list ++ r2.component_list, max s1.net_count r2.net_count⟩,
    ?_, rfl, rfl⟩
  unfold parse_text
  rw [hsh, h2]
  rfl

theorem parse_text_accumulates_witness :
    ∃ s2, parse_text reg0
      { component_list := [{ name := "wgA", nets := ["1", "-1"], lay_x := none
                             lay_y := none, radius := none, length := none
                             width := none, points := [] }], net_count := 1 }
      "c2 wgB N$2 N$-2" = some s2 ∧
      s2.component_list =
        [{ name := "wgA", nets := ["1", "-1"], lay_x := none, lay_y := none
           radius := none, length := none, width := none, points := [] }] ++
        [{ name := "wgB", nets := ["2", "-2"], lay_x := none, lay_y := none
           radius := none, length := none, width := none, points := [] }] ∧
      s2.net_count = max 1 2 :=
  parse_text_accumulates reg0 "c1 wgA N$1 N$-1" "c2 wgB N$2 N$-2"
    { component_list := [{ name := "wgA", nets := ["1", "-1"], lay_x := none
                           lay_y := none, radius := none, length := none
                           width := none, points := [] }], net_count := 1 }
    { component_list := [{ name := "wgB", nets := ["2", "-2"], lay_x := none
                           lay_y := none, radius := none, length := none
                           width := none, points := [] }], net_count := 2 }
    (by decide) (by decide)

/-- C9: when a parsed netlist references internal net id 0 but no id greater
than 0, the parser's `net_count` stays at its initial value 0 (the update
fires only for a strictly greater id), and `connect_circuit` consequently
returns no result, exactly as for a netlist with no internal nets at all. -/
theorem parse_netcount_zero_connect_none (reg : String → Option Component)
    (text : String) (r : ObjectModelNetlist)
    (hp : parse_text reg omInit text = some r)
    (hzero : ∃ c ∈ r.component_list, "0" ∈ c.nets)
    (hneg : ∀ c ∈ r.component_list, ∀ s ∈ c.nets, ∀ v : Int,
      parseInt? s = some v → v ≤ 0) :
    r.net_count = 0 ∧
      ∀ init : Component → ComponentSimulation, connect_circuit init r = none := by
  unfold parse_text at hp
  have hle : r.net_count ≤ 0 := parse_go_zero (le_refl 0) (le_refl 0) hp hneg
  have hge : (0 : Int) ≤ r.net_count := parse_go_nonneg (le_refl 0) hp
  have hz : r.net_count = 0 := le_antisymm hle hge
  refine ⟨hz, fun init => ?_⟩
  simp [connect_circuit, hz]

theorem parse_netcount_zero_connect_none_witness :
    ({ component_list := [{ name := "wg", nets := ["0", "-1"], lay_x := none
                            lay_y := none, radius := none, length := none
                            width := none, points := [] }], net_count := 0 }
      : ObjectModelNetlist).net_count = 0 ∧
    ∀ init : Component → ComponentSimulation,
      connect_circuit init
        { component_list := [{ name := "wg", nets := ["0", "-1"], lay_x := none
                               lay_y := none, radius := none, length := none
                               width := none, points := [] }], net_count := 0 } = none := by
  refine parse_netcount_zero_connect_none reg0 "c1 wg N$0 N$-1" _ (by decide) ?_ ?_
  · exact ⟨{ name := "wg", nets := ["0", "-1"], lay_x := none, lay_y := none
             radius := none, length := none, width := none, points := [] },
      by decide, by decide⟩
  · intro c hc s hs v hv
    simp only [List.mem_singleton] at hc
    subst hc
    simp only [List.mem_cons, List.not_mem_nil, or_false] at hs
    rcases hs with rfl | rfl
    · rw [show parseInt? "0" = some 0 from rfl] at hv
      have := Option.some.inj hv
      omega
    · rw [show parseInt? "-1" = some (-1) from rfl] at hv
      have := Option.some.inj hv
      omega

/-! ### Claim theorems: C1, C5, C7 -/

/-- C1 counterexample: for the claimed netlist (component A with nets
`["-1","0"]`, component B with nets `["0","-2"]`) the parser leaves
`net_count` at 0, so `connect_circuit` returns `None` and never produces the
merged single unit the claim describes. -/
theorem connect_two_components_counterexample :
    parse_text reg0 omInit "A wgA N$-1 N$0\nB wgB N$0 N$-2" =
      some { component_list := [{ blankComponent "wgA" with nets := ["-1", "0"] },
                                { blankComponent "wgB" with nets := ["0", "-2"] }]
             net_count := 0 } ∧
    connect_circuit simInit
      { component_list := [{ blankComponent "wgA" with nets := ["-1", "0"] },
                           { blankComponent "wgB" with nets := ["0", "-2"] }]
        net_count := 0 } = none :=
  ⟨by decide, by decide⟩

/-- C1 amended: the loop body of `connect_circuit` for net 0 merges the two
units by the two-port connection formula, and the merged unit's net list is
`["-1", "-2"]` (A's remaining nets followed by B's) with port count 2;
`connect_circuit` itself, however, returns `None` on this two-component
netlist because its `net_count` is 0. -/
theorem connect_step_merges_two_components :
    connectStep 0 [(⟨["-1", "0"], 0, 2⟩ : ComponentSimulation),
      (⟨["0", "-2"], 0, 2⟩ : ComponentSimulation)] =
      some [(⟨["-1", "-2"], 0, 2⟩ : ComponentSimulation)] := by
  decide

/-- C5 counterexample: the line `wg.1 wgA N$-1` has a first token whose head
character is `'w'` (it does not start with `.` or `*`), yet `parse_text`
skips it because the source tests substring containment, so no component
record is parsed, contrary to the claim's last part. -/
theorem parse_directive_prefix_counterexample :
    parse_text reg0 omInit "wg.1 wgA N$-1" =
      some { component_list := [], net_count := 0 } ∧
    "wg.1".data.head? = some 'w' :=
  ⟨by decide, by decide⟩

/-- C5 amended: `parse_text` skips exactly those non-empty lines whose first
token contains `.` or `*` anywhere (not only as a leading character), stops
parsing entirely at a line whose first token contains `.ends`, and parses
every other non-empty line as a component record. -/
theorem parse_line_classification (reg : String → Option Component)
    (st : ObjectModelNetlist) (line : List Char) (rest : List (List Char))
    (first : String) (ts : List String) (htok : tokens line = first :: ts) :
    (strContains first ".ends" = true →
      parse_text_go reg st (line :: rest) = some st) ∧
    (strContains first ".ends" = false →
      (strContains first "." || strContains first "*") = true →
      parse_text_go reg st (line :: rest) = parse_text_go reg st rest) ∧
    (strContains first ".ends" = false →
      (strContains first "." || strContains first "*") = false →
      parse_text_go reg st (line :: rest) =
        match _parse_line reg st (first :: ts) with
        | none => none
        | some st2 => parse_text_go reg st2 rest) := by
  refine ⟨?_, ?_, ?_⟩
  · intro hEnds
    simp only [parse_text_go, htok, hEnds, if_true]
  · intro hEnds hDir
    simp only [parse_text_go, htok, hEnds, Bool.false_eq_true, if_false, hDir, if_true]
  · intro hEnds hDir
    simp only [parse_text_go, htok, hEnds, hDir, Bool.false_eq_true, if_false]

theorem parse_line_classification_witness :
    (strContains ".param" ".ends" = true →
      parse_text_go reg0 omInit (".param x".data :: []) = some omInit) ∧
    (strContains ".param" ".ends" = false →
      (strContains ".param" "." || strContains ".param" "*") = true →
      parse_text_go reg0 omInit (".param x".data :: []) =
        parse_text_go reg0 omInit []) ∧
    (strContains ".param" ".ends" = false →
      (strContains ".param" "." || strContains ".param" "*") = false →
      parse_text_go reg0 omInit (".param x".data :: []) =
        match _parse_line reg0 omInit [".param", "x"] with
        | none => none
        | some st2 => parse_text_go reg0 st2 []) :=
  parse_line_classification reg0 omInit ".param x".data [] ".param" ["x"] (by decide)

/-- C7 counterexample: for the input `"5"` (final character not `m`, `u` or
`n`) `strToSci` does not reach the fallback branch: `float("")` raises
`ValueError` first, so the failure is a `valueError` and not the fallback
`typeError` the claim describes. -/
theorem strToSci_no_suffix_counterexample :
    strToSci "5" = Except.error PyError.valueError ∧
    PyError.valueError ≠ PyError.typeError :=
  ⟨rfl, by decide⟩

/-- C7 amended: for every input string whose final character is not `m`, `u`
or `n`, `strToSci` never returns a value: it fails with `ValueError` when the
mantissa `number[:-1]` is not float-parsable, and otherwise reaches the
fallback branch, which applies the input string as if it were callable and
raises `TypeError`. -/
theorem strToSci_bad_suffix_fails (s : String) (c : Char)
    (hc : s.data.getLast? = some c) (hm : c ≠ 'm') (hu : c ≠ 'u') (hn : c ≠ 'n') :
    strToSci s = Except.error (if isFloatLit (String.mk s.data.dropLast)
      then PyError.typeError else PyError.valueError) := by
  unfold strToSci
  rw [hc]
  by_cases hf : isFloatLit (String.mk s.data.dropLast)
  · simp [pyFloat?, hf, hm, hu, hn]
  · simp [pyFloat?, hf]

theorem strToSci_bad_suffix_fails_witness :
    strToSci "57" = Except.error (if isFloatLit (String.mk "57".data.dropLast)
      then PyError.typeError else PyError.valueError) :=
  strToSci_bad_suffix_fails "57" '7' (by decide) (by decide) (by decide) (by decide)
